import Mathlib

/-!
Verification development for the content-extraction engine of the
open-news-insights repository (src/src/scraper/extractor.py,
src/src/scraper/parser.py, src/src/config/sites.py).

Modelling conventions:
* Python floats are modelled as rationals (every constant in the scoring
  code is an exact decimal; all claims are about the scoring formulas).
* Python strings are `String`; most computation happens on `String.data`
  (`List Char`).  Only the ASCII subset matters for the scoring code, so
  `Char.toLower` models `str.lower`.
* HTML element trees are a mutual inductive (`HNode`/`HForest`); the
  BeautifulSoup parser itself and the soupsieve CSS matcher are external
  collaborators and appear as function parameters (`parseHtml`, `select`).
* Exceptions: every fallible collaborator is total or returns `Option`;
  the source's catch-log-continue blocks around per-element work never
  fire in the model because all modelled sub-steps are total functions.
-/

namespace ONI

/-- Python whitespace for `str.split` / `str.strip` / regex `\s`
(ASCII subset: space, tab, newline, carriage return, vertical tab,
form feed). -/
def isPyWs (c : Char) : Bool :=
  c = ' ' ∨ c = '\t' ∨ c = '\n' ∨ c = '\r' ∨ c = '\x0b' ∨ c = '\x0c'

/-- `str.strip()` on a char list: drop leading and trailing whitespace. -/
def pystripL (l : List Char) : List Char :=
  (l.dropWhile isPyWs).rdropWhile isPyWs

/-- `str.strip()` (extractor.py line 583 et al.). -/
def pystrip (s : String) : String :=
  String.mk (pystripL s.data)

/-- Helper for `str.split()` with no argument: accumulate the current
word (reversed) and emit maximal non-whitespace runs. -/
def wordsAuxL : List Char → List Char → List (List Char)
  | [], cur => if cur = [] then [] else [cur.reverse]
  | c :: cs, cur =>
    if isPyWs c then
      (if cur = [] then wordsAuxL cs [] else cur.reverse :: wordsAuxL cs [])
    else wordsAuxL cs (c :: cur)

/-- `content.split()`: the list of whitespace-delimited words. -/
def pywordsL (l : List Char) : List (List Char) :=
  wordsAuxL l []

/-- `len(content.split())`. -/
def wordCount (s : String) : Nat :=
  (pywordsL s.data).length

theorem dropWhile_length_le (p : Char → Bool) (l : List Char) :
    (l.dropWhile p).length ≤ l.length := by
  induction l with
  | nil => simp [List.dropWhile]
  | cons c cs ih =>
    simp only [List.dropWhile]
    split
    · exact Nat.le_succ_of_le ih
    · simp

/-- State-machine form of the whitespace collapse: emit a single space
at the first char of each whitespace run (`inWs` = previous char was
whitespace). -/
def collapseWsAux : Bool → List Char → List Char
  | _, [] => []
  | inWs, c :: cs =>
    if isPyWs c then
      (if inWs then collapseWsAux true cs else ' ' :: collapseWsAux true cs)
    else c :: collapseWsAux false cs

/-- `re.sub(r'\s+', ' ', text)`: each maximal whitespace run becomes a
single space (extractor.py line 617, parser.py line 364). -/
def collapseWsL (l : List Char) : List Char :=
  collapseWsAux false l

/-- `str.lower()` (ASCII). -/
def toLowerL (l : List Char) : List Char :=
  l.map Char.toLower

/-- `str.lower()` on strings. -/
def lowerStr (s : String) : String :=
  String.mk (toLowerL s.data)

/-- Substring test: `re.search(pat, s)` for the literal (metacharacter
free) patterns used by the extractor. -/
def containsSubL (nd : List Char) : List Char → Bool
  | [] => List.isPrefixOf nd []
  | c :: cs => List.isPrefixOf nd (c :: cs) || containsSubL nd cs

/-- Substring test on strings (`pat` literal, both already lowercased). -/
def containsSub (nd s : String) : Bool :=
  containsSubL nd.data s.data

/-- Index of the leftmost position where one of `nds` occurs, if any. -/
def firstHitAux (nds : List (List Char)) : List Char → Option Nat
  | [] => if nds.any List.isEmpty then some 0 else none
  | c :: cs =>
    if nds.any (fun nd => List.isPrefixOf nd (c :: cs)) then some 0
    else (firstHitAux nds cs).map (· + 1)

/-- Sentence terminators for `re.split(r'[.!?]+', content)`. -/
def isSentTerm (c : Char) : Bool :=
  c = '.' ∨ c = '!' ∨ c = '?'

/-- Number of maximal sentence-terminator runs (`inRun` = previous char
was a terminator). -/
def termRunsAux : Bool → List Char → Nat
  | _, [] => 0
  | inRun, c :: cs =>
    if isSentTerm c then
      (if inRun then termRunsAux true cs else 1 + termRunsAux true cs)
    else termRunsAux false cs

/-- `len(re.split(r'[.!?]+', content))`: one more segment than the number
of maximal terminator runs. -/
def segsCount (l : List Char) : Nat :=
  1 + termRunsAux false l

/-- `content.split('\n\n')` (Python literal split: leftmost,
non-overlapping). -/
def nnSplitAux : List Char → List Char → List (List Char)
  | [], cur => [cur.reverse]
  | '\n' :: '\n' :: rest, cur => cur.reverse :: nnSplitAux rest []
  | c :: rest, cur => nnSplitAux rest (c :: cur)

/-- `content.split('\n\n')`. -/
def nnSplit (l : List Char) : List (List Char) :=
  nnSplitAux l []

/-- `' '.join(parts)` (also used for `'\n\n'.join` with another
separator). -/
def joinWith (sep : String) : List String → String
  | [] => ""
  | [a] => a
  | a :: rest => a ++ sep ++ joinWith sep rest

/-- Alternatives of `r'^(Advertisement|Sponsored|Related:|Share:|Follow:|Subscribe:)'`
(extractor.py line 621), lowercased for the IGNORECASE match. -/
def adsMarkers : List (List Char) :=
  ["advertisement", "sponsored", "related:", "share:", "follow:", "subscribe:"].map String.data

/-- Alternatives of `r'(Click here|Read more|Continue reading).*$'`
(extractor.py line 622). -/
def tailMarkers : List (List Char) :=
  ["click here", "read more", "continue reading"].map String.data

/-- Alternatives of `r'^\s*(By|Author:|Written by)\s+'` (extractor.py
line 623). -/
def bylineMarkers : List (List Char) :=
  ["by", "author:", "written by"].map String.data

/-- Alternatives of `r'\s*(Share on|Follow us|Subscribe to).*$'`
(extractor.py line 624). -/
def shareMarkers : List (List Char) :=
  ["share on", "follow us", "subscribe to"].map String.data

/-- `re.sub` of an anchored alternation `^(A|B|...)` with `''`,
IGNORECASE: at most one removal, at position 0, first alternative that
matches (the input has no newline left, so MULTILINE is moot). -/
def dropAltPre (nds : List (List Char)) (l : List Char) : List Char :=
  match nds.find? (fun nd => List.isPrefixOf nd (toLowerL l)) with
  | some nd => l.drop nd.length
  | none => l

/-- `re.sub` of `(A|B|...).*$` with `''`, IGNORECASE: truncate at the
leftmost occurrence of an alternative (`.*$` eats the rest; the input
has no newline left). -/
def truncAtMarkers (nds : List (List Char)) (l : List Char) : List Char :=
  match firstHitAux nds (toLowerL l) with
  | some i => l.take i
  | none => l

/-- `re.sub` of `^\s*(By|Author:|Written by)\s+` with `''`, IGNORECASE:
skip leading whitespace, require an alternative followed by at least one
whitespace char, and remove through the maximal whitespace run after it. -/
def bylineStep (l : List Char) : List Char :=
  let k := (l.takeWhile isPyWs).length
  let rest := l.drop k
  let lrest := toLowerL rest
  match bylineMarkers.find? (fun nd =>
      List.isPrefixOf nd lrest &&
      (match rest.drop nd.length with
       | c :: _ => isPyWs c
       | [] => false)) with
  | some nd => l.drop (k + nd.length + ((rest.drop nd.length).takeWhile isPyWs).length)
  | none => l

/-- `re.sub` of `\s*(Share on|Follow us|Subscribe to).*$` with `''`,
IGNORECASE: truncate at the leftmost occurrence of an alternative, also
eating the whitespace run immediately before it. -/
def shareStep (l : List Char) : List Char :=
  match firstHitAux shareMarkers (toLowerL l) with
  | some i => l.take (i - ((l.take i).rtakeWhile isPyWs).length)
  | none => l

/-- `re.sub(r'\n\s*\n\s*\n+', '\n\n', text)` (extractor.py line 636):
each whitespace run containing at least three newlines is rewritten so
its span from the first to the last newline becomes exactly two
newlines.  (In `_clean_text` this runs after the `\s+` collapse, which
leaves no newline at all, so it is the identity there.) -/
def cleanNlRunsF : Nat → List Char → List Char
  | 0, l => l
  | Nat.succ _, [] => []
  | Nat.succ fuel, c :: cs =>
    if c = '\n' then
      (if 3 ≤ ((c :: cs).takeWhile isPyWs).count '\n' then
        '\n' :: '\n' :: cleanNlRunsF fuel ((c :: cs).drop
          ((((c :: cs).takeWhile isPyWs).length - 1 -
            List.findIdx (fun x => x = '\n') ((c :: cs).takeWhile isPyWs).reverse) + 1))
      else c :: cleanNlRunsF fuel cs)
    else c :: cleanNlRunsF fuel cs

/-- `re.sub(r'\n\s*\n\s*\n+', '\n\n', text)` (extractor.py line 636):
each whitespace run containing at least three newlines is rewritten so
its span from the first to the last newline becomes exactly two
newlines (the regex match runs from the run's first to its last
newline).  Written with an explicit fuel (the input length: every step
consumes at least one char), so the kernel can evaluate it.  In
`_clean_text` this step runs after the `\s+` collapse, which leaves no
newline at all, so it is the identity there. -/
def cleanNlRuns (l : List Char) : List Char :=
  cleanNlRunsF l.length l

/-- `TextExtractor._clean_text` (extractor.py lines 610-645): collapse
whitespace, strip boilerplate phrase markers, collapse excess blank
lines, strip. -/
def clean_text (s : String) : String :=
  if s = "" then ""
  else
    let l0 := collapseWsL s.data
    let l1 := dropAltPre adsMarkers l0
    let l2 := truncAtMarkers tailMarkers l1
    let l3 := bylineStep l2
    let l4 := shareStep l3
    let l5 := cleanNlRuns l4
    String.mk (pystripL l5)

/-- Alternatives of parser.py line 367 (no `Subscribe:`), lowercased. -/
def pAdsMarkers : List (List Char) :=
  ["advertisement", "sponsored", "related:", "share:", "follow:"].map String.data

/-- `HTMLParser._clean_text` (parser.py lines 358-369): strip, collapse
whitespace, remove one leading marker. -/
def p_clean_text (s : String) : String :=
  if s = "" then ""
  else String.mk (dropAltPre pAdsMarkers (collapseWsL (pystripL s.data)))

/-- `TextExtractor._is_good_content` (extractor.py lines 647-668): the
quality gate.  The mean-word-length test `avg < 3 or avg > 15` is the
exact rational comparison `sum/len < 3 ∨ sum/len > 15`, written
cross-multiplied. -/
def is_good_content (content : String) : Bool :=
  if content = "" then false
  else
    let ws := pywordsL content.data
    if ws.length < 50 then false
    else if segsCount content.data < 3 then false
    else
      let s := (ws.map List.length).sum
      if s < 3 * ws.length ∨ s > 15 * ws.length then false
      else true

/-- `method_scores.get(method, 0.3)` (extractor.py lines 720-726). -/
def method_scores (m : String) : ℚ :=
  if m = "site_specific" then 0.8
  else if m = "readability" then 0.6
  else if m = "generic_fallback" then 0.4
  else if m = "error" then 0.0
  else 0.3

/-- `TextExtractor._calculate_confidence_score` (extractor.py lines
710-746), written exactly as the source's sequence of adjustments. -/
def calculate_confidence_score (content method : String) : ℚ :=
  if content = "" then 0
  else
    let wc := wordCount content
    let base := method_scores method
    let s1 :=
      if wc > 200 then base + 0.2
      else if wc > 100 then base + 0.1
      else if wc < 50 then base - 0.2
      else base
    let s2 := if segsCount content.data > 5 then s1 + 0.1 else s1
    let s3 := if (nnSplit content.data).length > 2 then s2 + 0.1 else s2
    min (max s3 0) 1

/-- `ExtractedContent.preserved_formatting` (extractor.py lines 694-698). -/
structure Formatting where
  has_paragraphs : Bool
  avg_paragraph_length : ℚ
  has_proper_sentences : Bool
deriving DecidableEq

/-- `ExtractedContent` (extractor.py lines 32-52).  `error_details` is an
association list; the dataclass defaults (`[]`/`{}`) are `[]`/`none`. -/
structure ExtractedContent where
  clean_text : String
  word_count : Nat
  paragraph_count : Nat
  extraction_method : String
  confidence_score : ℚ
  removed_elements : List String := []
  preserved_formatting : Option Formatting := none
  error_details : List (String × String) := []
deriving DecidableEq

/-- `TextExtractor._create_error_result` (extractor.py lines 288-312). -/
def create_error_result (message error_type : String)
    (details : List (String × String)) : ExtractedContent :=
  { clean_text := ""
    word_count := 0
    paragraph_count := 0
    extraction_method := "error"
    confidence_score := 0.0
    removed_elements := ["Error: " ++ message]
    error_details :=
      ("error_type", error_type) :: ("error_message", message) :: details }

/-- `TextExtractor._create_result` (extractor.py lines 670-708); `st` is
the instance's `self.removed_elements` at the time of the call (the
source stores a `.copy()` of it in the result). -/
def create_result (st : List String) (content method : String) : ExtractedContent :=
  if content = "" then
    { clean_text := ""
      word_count := 0
      paragraph_count := 0
      extraction_method := method
      confidence_score := 0.0
      removed_elements := st }
  else
    let wc := wordCount content
    let pc := ((nnSplit content.data).filter (fun p => pystripL p ≠ [])).length
    { clean_text := content
      word_count := wc
      paragraph_count := pc
      extraction_method := method
      confidence_score := calculate_confidence_score content method
      removed_elements := st
      preserved_formatting := some
        { has_paragraphs := pc > 1
          avg_paragraph_length := (wc : ℚ) / (max pc 1 : ℕ)
          has_proper_sentences :=
            content.data.any (fun c => c = '.' ∨ c = '!' ∨ c = '?') } }

/-- Attributes of an HTML element that the extractor inspects:
`class`, `id`, `style`, the ad/widget marker attributes, and `datetime`
(used by the metadata parser).  `dataAd`/`dataWidget` model the
truthiness of `element.get('data-ad')`/`element.get('data-widget')`. -/
structure Attrs where
  classes : List String := []
  id : String := ""
  style : String := ""
  dataAd : Bool := false
  dataWidget : Bool := false
  datetimeAttr : Option String := none

mutual
/-- A parsed HTML node (BeautifulSoup `Tag` / `NavigableString` /
`Comment`). -/
inductive HNode : Type where
  | text (s : String)
  | comment (s : String)
  | elem (tag : String) (attrs : Attrs) (children : HForest)
/-- A sibling sequence of nodes (`Tag.contents`). -/
inductive HForest : Type where
  | nil
  | cons (n : HNode) (rest : HForest)
end

mutual
/-- `element.descendants` for one element, in document (preorder)
order. -/
def descN : HNode → List HNode
  | .text _ => []
  | .comment _ => []
  | .elem _ _ cs => descF cs
/-- All nodes of a forest, in document (preorder) order. -/
def descF : HForest → List HNode
  | .nil => []
  | .cons n r => n :: descN n ++ descF r
end

def isElemNode : HNode → Bool
  | .elem _ _ _ => true
  | _ => false

def isCommentNode : HNode → Bool
  | .comment _ => true
  | _ => false

def isElemTag (t : String) : HNode → Bool
  | .elem tag _ _ => tag = t
  | _ => false

def tagOf : HNode → String
  | .elem t _ _ => t
  | _ => ""

/-- `soup.find_all(tag_name)`: all elements with the given tag, in
document order (descending into matches). -/
def findAllTag (t : String) (f : HForest) : List HNode :=
  (descF f).filter (isElemTag t)

/-- `soup.find_all()`: all elements, in document order. -/
def elemsF (f : HForest) : List HNode :=
  (descF f).filter isElemNode

mutual
/-- Remove, below one node, every element on which `keep` is false,
together with its subtree (the net tree effect of calling `.extract()`
on each element from a `find_all` snapshot). -/
def filterKeepN (keep : HNode → Bool) : HNode → HNode
  | .text s => .text s
  | .comment s => .comment s
  | .elem t a cs => .elem t a (filterKeepF keep cs)
/-- Remove, in a forest, every element on which `keep` is false,
together with its subtree. -/
def filterKeepF (keep : HNode → Bool) : HForest → HForest
  | .nil => .nil
  | .cons n r =>
    if keep n then .cons (filterKeepN keep n) (filterKeepF keep r)
    else filterKeepF keep r
end

def textNodesOf (l : List HNode) : List String :=
  l.filterMap fun n =>
    match n with
    | .text s => some s
    | _ => none

/-- `element.get_text(strip=True)`: the stripped descendant strings
joined with the empty separator. -/
def getTextStrip (n : HNode) : String :=
  String.mk (((textNodesOf (descN n)).map (fun s => pystripL s.data)).flatten)

/-- `element.get_text()` with defaults (parser.py): the raw descendant
strings joined with the empty separator. -/
def getTextRaw (n : HNode) : String :=
  String.mk (((textNodesOf (descN n)).map String.data).flatten)

/-- `TextExtractor.BOILERPLATE_TAGS` (extractor.py lines 65-69); a
Python set, iterated here in source-literal order (the claims never
depend on the set's iteration order). -/
def BOILERPLATE_TAGS : List String :=
  ["nav", "header", "footer", "aside", "menu", "menuitem",
   "script", "style", "noscript", "iframe", "embed", "object",
   "form", "input", "button", "select", "textarea", "label"]

/-- `TextExtractor.BOILERPLATE_PATTERNS` (extractor.py lines 72-84); all
patterns are literal strings, so `re.search` is a substring test. -/
def BOILERPLATE_PATTERNS : List String :=
  ["nav", "navigation", "menu", "sidebar", "aside",
   "header", "footer", "banner", "toolbar",
   "ad", "advertisement", "promo", "sponsored",
   "social", "share", "sharing", "follow",
   "comment", "discussion", "feedback",
   "related", "recommend", "suggestion",
   "widget", "plugin", "embed",
   "breadcrumb", "pagination", "pager",
   "search", "filter", "sort",
   "cookie", "gdpr", "privacy",
   "newsletter", "subscribe", "signup"]

/-- `TextExtractor.CONTENT_PATTERNS` (extractor.py lines 87-90). -/
def CONTENT_PATTERNS : List String :=
  ["article", "content", "main", "story", "post",
   "body", "text", "paragraph", "section"]

/-- `' '.join(classes) + ' ' + element_id`, lowercased (extractor.py
lines 385-390 and 486-489). -/
def text_to_check (a : Attrs) : String :=
  lowerStr (joinWith " " a.classes ++ " " ++ a.id)

def removeSpaces (s : String) : String :=
  String.mk (s.data.filter (fun c => c ≠ ' '))

/-- `TextExtractor._is_boilerplate_element` (extractor.py lines
378-416). -/
def is_boilerplate_element (n : HNode) : Bool :=
  match n with
  | .elem _ a _ =>
    let t := text_to_check a
    BOILERPLATE_PATTERNS.any (fun p => containsSub p t)
    || (a.dataAd || a.dataWidget)
    || (a.style ≠ "" &&
        (let sc := lowerStr (removeSpaces a.style)
         containsSub "display:none" sc || containsSub "visibility:hidden" sc))
  | _ => false

/-- `TextExtractor._score_content_element` (extractor.py lines 478-526),
written exactly as the source's sequence of adjustments. -/
def score_content_element (n : HNode) : ℚ :=
  match n with
  | .elem _ a _ =>
    let t := text_to_check a
    let s0 : ℚ := 10 * ((CONTENT_PATTERNS.filter (fun p => containsSub p t)).length : ℚ)
    let s1 := s0 - 5 * ((BOILERPLATE_PATTERNS.filter (fun p => containsSub p t)).length : ℚ)
    let txt := getTextStrip n
    let s2 :=
      if txt ≠ "" then
        let wc := wordCount txt
        let s2a :=
          if wc > 100 then s1 + 20
          else if wc > 50 then s1 + 10
          else if wc > 20 then s1 + 5
          else s1
        let ps := ((descN n).filter (isElemTag "p")).length
        if ps > 3 then s2a + 15 else if ps > 1 then s2a + 5 else s2a
      else s1
    let links := ((descN n).filter (isElemTag "a")).length
    let s3 := if links > 10 then s2 - 10 else s2
    max s3 0
  | _ => 0

/-- `TextExtractor._find_best_content_element` (extractor.py lines
459-476): collect positive-scoring candidates in document order over
article/main/section/div, stable-sort by score descending, take the
head — i.e. the first-seen candidate of maximal score. -/
def pickBest (acc : Option (HNode × ℚ)) (ns : HNode × ℚ) : Option (HNode × ℚ) :=
  match acc with
  | none => some ns
  | some ms => if ns.2 > ms.2 then some ns else acc

def find_best_content_element (f : HForest) : Option HNode :=
  (((((["article", "main", "section", "div"].map (fun t => findAllTag t f)).flatten).filterMap
      (fun n => if score_content_element n > 0 then some (n, score_content_element n) else none)).foldl
    pickBest none).map Prod.fst)

/-- The text-part accumulation of `TextExtractor._extract_text_from_element`
(extractor.py lines 577-592); `acc` holds the parts in reverse. -/
def partsAux : List HNode → List String → List String
  | [], acc => acc.reverse
  | n :: rest, acc =>
    match n with
    | .text s =>
      let t := pystrip s
      if t = "" then partsAux rest acc else partsAux rest (t :: acc)
    | .comment _ => partsAux rest acc
    | .elem tag _ _ =>
      if tag = "br" ∨ tag = "p" ∨ tag = "div" then
        match acc with
        | [] => partsAux rest acc
        | a :: _ =>
          if a.data.getLast? = some '\n' then partsAux rest acc
          else partsAux rest ("\n" :: acc)
      else partsAux rest acc

/-- `TextExtractor._extract_text_from_element` (extractor.py lines
570-608).  (On an empty element the source's `if not element` guard
returns `""`; here the formula yields `""` as well.) -/
def extract_text_from_element (n : HNode) : String :=
  clean_text (joinWith " " (partsAux (descN n) []))

/-- One iteration of the tag-removal loops: `find_all(t)`, extract and
log each hit (nested hits are in the `find_all` snapshot, so each is
logged), then the tree without them. -/
def remove_tag_pass (label : String) (t : String) (f : HForest) : HForest × List String :=
  (filterKeepF (fun n => !(isElemTag t n)) f,
   List.replicate (findAllTag t f).length (label ++ t))

/-- Sequential removal over a list of tag names (each `find_all` sees
the tree left by the previous iteration); logs are concatenated in
iteration order. -/
def fold_tag_removals (label : String) : List String → HForest → HForest × List String
  | [], f => (f, [])
  | t :: ts, f =>
    ((fold_tag_removals label ts (remove_tag_pass label t f).1).1,
     (remove_tag_pass label t f).2 ++
       (fold_tag_removals label ts (remove_tag_pass label t f).1).2)

/-- `TextExtractor._remove_comments_and_scripts` (extractor.py lines
314-339): extract every comment (logging `comment`), then script,
style and noscript tags (logging `script_style:<tag>`). -/
def remove_comments_and_scripts (f : HForest) : HForest × List String :=
  ((fold_tag_removals "script_style:" ["script", "style", "noscript"]
      (filterKeepF (fun n => !(isCommentNode n)) f)).1,
   List.replicate ((descF f).filter isCommentNode).length "comment" ++
     (fold_tag_removals "script_style:" ["script", "style", "noscript"]
       (filterKeepF (fun n => !(isCommentNode n)) f)).2)

/-- One class/id-pattern pass of `_remove_boilerplate_elements`: every
element of the `find_all()` snapshot that matches
`_is_boilerplate_element` is extracted and logged as
`pattern:<tag>`. -/
def pattern_pass (f : HForest) : HForest × List String :=
  (filterKeepF (fun n => !(is_boilerplate_element n)) f,
   ((elemsF f).filter is_boilerplate_element).map (fun n => "pattern:" ++ tagOf n))

/-- `TextExtractor._remove_boilerplate_elements` (extractor.py lines
341-376): the tag-denylist pass, then the class/id-pattern pass — which
the source runs twice (lines 359-370 and again 372-376). -/
def remove_boilerplate_elements (f : HForest) : HForest × List String :=
  ((pattern_pass (pattern_pass (fold_tag_removals "tag:" BOILERPLATE_TAGS f).1).1).1,
   (fold_tag_removals "tag:" BOILERPLATE_TAGS f).2 ++
     (pattern_pass (fold_tag_removals "tag:" BOILERPLATE_TAGS f).1).2 ++
     (pattern_pass (pattern_pass (fold_tag_removals "tag:" BOILERPLATE_TAGS f).1).1).2)

/-- The `site_selectors` dict of `extract_content`; only
`content_selector` is read.  `none` for a missing key (`dict.get`). -/
structure SelectorsDict where
  content_selector : Option String := none

/-- `TextExtractor._extract_with_selectors` (extractor.py lines
418-442); `select` is the soupsieve CSS-matching collaborator
(`soup.select`), returning matches in document order. -/
def extract_with_selectors (select : String → HForest → List HNode)
    (f : HForest) (sels : SelectorsDict) : String :=
  match sels.content_selector with
  | none => ""
  | some cs =>
    if cs = "" then ""
    else joinWith "\n\n" (((select cs f).map extract_text_from_element).filter (fun t => t ≠ ""))

/-- `TextExtractor._extract_with_readability` (extractor.py lines
444-457). -/
def extract_with_readability (f : HForest) : String :=
  match find_best_content_element f with
  | some e => extract_text_from_element e
  | none => ""

/-- `TextExtractor._extract_generic_content` (extractor.py lines
528-568): paragraphs with more than 10 words; otherwise the first
div/section/article with more than 20 words. -/
def extract_generic_content (f : HForest) : String :=
  let ps := ((findAllTag "p" f).map extract_text_from_element).filter
    (fun t => decide (t ≠ "" ∧ wordCount t > 10))
  let parts :=
    if ps ≠ [] then ps
    else
      match ["div", "section", "article"].findSome? (fun tg =>
        (findAllTag tg f).findSome? (fun e =>
          let x := extract_text_from_element e
          if x ≠ "" ∧ wordCount x > 20 then some x else none)) with
      | some x => [x]
      | none => []
  joinWith "\n\n" parts

/-- `TextExtractor._handle_encoding_issues` on the `str` branch
(extractor.py lines 245-247): drop null bytes and the control
characters `[\x01-\x08\x0B\x0C\x0E-\x1F\x7F]`. -/
def handle_encoding_issues (s : String) : String :=
  String.mk (s.data.filter (fun c =>
    !(c = '\x00' ∨ ('\x01' ≤ c ∧ c ≤ '\x08') ∨ c = '\x0b' ∨ c = '\x0c'
      ∨ ('\x0e' ≤ c ∧ c ≤ '\x1f') ∨ c = '\x7f')))

/-- The `html` argument of `extract_content`: `None`, a non-string value
(described by its type name and `str(...)[:100]` preview), or a
string. -/
inductive HtmlInput where
  | pynone
  | nonString (typeName preview : String)
  | str (s : String)

/-- The readability-then-generic tail of the strategy cascade of
`extract_content` (extractor.py lines 173-197), reached when the
site-specific strategy did not return. -/
def extract_cascade_rest (st2 : List String) (soup2 : HForest) : ExtractedContent :=
  if extract_with_readability soup2 ≠ "" ∧ is_good_content (extract_with_readability soup2) then
    create_result st2 (extract_with_readability soup2) "readability"
  else
    if (create_result st2 (extract_generic_content soup2) "generic_fallback").confidence_score < 0.3 then
      { create_result st2 (extract_generic_content soup2) "generic_fallback" with
          error_details :=
            (create_result st2 (extract_generic_content soup2) "generic_fallback").error_details ++
              [("warning", "Low confidence extraction - content quality may be poor")] }
    else create_result st2 (extract_generic_content soup2) "generic_fallback"

/-- The strategy cascade of `extract_content` (extractor.py lines
163-197) on the sanitized tree `soup2`, with `st2` the accumulated
removal log. -/
def extract_parsed (select : String → HForest → List HNode)
    (st2 : List String) (soup2 : HForest)
    (site_selectors : Option SelectorsDict) : ExtractedContent :=
  match site_selectors with
  | none => extract_cascade_rest st2 soup2
  | some sels =>
    if extract_with_selectors select soup2 sels ≠ "" ∧
        is_good_content (extract_with_selectors select soup2 sels) then
      create_result st2 (extract_with_selectors select soup2 sels) "site_specific"
    else extract_cascade_rest st2 soup2

/-- The tree left by `_remove_comments_and_scripts` followed by
`_remove_boilerplate_elements` (extractor.py lines 149-161). -/
def sanitize_tree (soup : HForest) : HForest :=
  (remove_boilerplate_elements (remove_comments_and_scripts soup).1).1

/-- The removal-log entries appended by the two sanitizing passes. -/
def sanitize_log (soup : HForest) : List String :=
  (remove_comments_and_scripts soup).2 ++
    (remove_boilerplate_elements (remove_comments_and_scripts soup).1).2

/-- The `empty_input` result (extractor.py lines 126-134). -/
def empty_input_result : ExtractedContent :=
  { clean_text := ""
    word_count := 0
    paragraph_count := 0
    extraction_method := "empty_input"
    confidence_score := 0.0
    error_details := [("warning", "Empty HTML input")] }

/-- The body of `extract_content` for a non-blank string input
(extractor.py lines 136-197): fix encoding, parse, sanitize, cascade. -/
def extract_str_body (select : String → HForest → List HNode)
    (parseHtml : String → Option HForest)
    (st : List String) (s : String)
    (site_selectors : Option SelectorsDict) : ExtractedContent × List String :=
  match parseHtml (handle_encoding_issues s) with
  | none =>
    (create_error_result "Failed to parse HTML content" "HTML_PARSE_ERROR"
      [("html_length", Nat.repr (handle_encoding_issues s).length),
       ("html_preview", (handle_encoding_issues s).take 200)], st)
  | some soup =>
    (extract_parsed select (st ++ sanitize_log soup) (sanitize_tree soup) site_selectors,
     st ++ sanitize_log soup)

/-- `TextExtractor.extract_content` (extractor.py lines 97-219).
`st` is the instance field `self.removed_elements` on entry (never
reset by the source); the second component of the result is its value
on exit.  `parseHtml` is `_safe_parse_html` (the BeautifulSoup
collaborator: `none` = total parser failure). -/
def extract_content (select : String → HForest → List HNode)
    (parseHtml : String → Option HForest)
    (st : List String) (html : HtmlInput)
    (site_selectors : Option SelectorsDict) :
    ExtractedContent × List String :=
  match html with
  | .pynone =>
    (create_error_result "HTML input is None" "NULL_INPUT"
      [("input_type", "NoneType")], st)
  | .nonString tn preview =>
    (create_error_result ("HTML input must be string, got " ++ tn)
      "INVALID_INPUT_TYPE" [("input_type", tn), ("input_value", preview)], st)
  | .str s =>
    if pystrip s = "" then (empty_input_result, st)
    else extract_str_body select parseHtml st s site_selectors

/-- `SiteConfig` (src/config/models.py lines 13-31). -/
structure SiteConfig where
  domain : String
  title_selector : String
  content_selector : String
  author_selector : Option String := none
  date_selector : Option String := none
  fallback_selectors : List String := []
deriving DecidableEq

/-- `GUARDIAN_CONFIG` (src/config/sites.py lines 12-24). -/
def GUARDIAN_CONFIG : SiteConfig :=
  { domain := "theguardian.com"
    title_selector := "h1[data-gu-name='headline'], h1.content__headline"
    content_selector := "div[data-gu-name='body'] p, div.content__article-body p"
    author_selector := some "a[rel='author'], .byline a, address a"
    date_selector := some "time[datetime], .content__dateline time"
    fallback_selectors := ["article p", ".article-body p", ".content p", "main p"] }

/-- `TIMES_OF_INDIA_CONFIG` (src/config/sites.py lines 27-39). -/
def TIMES_OF_INDIA_CONFIG : SiteConfig :=
  { domain := "timesofindia.indiatimes.com"
    title_selector := "h1.HNMDR, h1._2yWcd, h1"
    content_selector := "div._s30J p, div.ga-headlines p, .Normal p"
    author_selector := some ".byline, .author-name, .writer-name"
    date_selector := some ".publish-date, .date-line, time"
    fallback_selectors := ["article p", ".story-content p", ".article-content p", "main p"] }

/-- `GENERIC_CONFIG` (src/config/sites.py lines 42-54). -/
def GENERIC_CONFIG : SiteConfig :=
  { domain := "*"
    title_selector := "h1, .title, .headline"
    content_selector := "article p, .content p, .article-body p, .story p"
    author_selector := some ".author, .byline, .writer"
    date_selector := some "time, .date, .published"
    fallback_selectors := ["p", "div p", "main p", "section p"] }

/-- `SITE_CONFIGS` (src/config/sites.py lines 57-63). -/
def SITE_CONFIGS : List (String × SiteConfig) :=
  [("theguardian.com", GUARDIAN_CONFIG),
   ("www.theguardian.com", GUARDIAN_CONFIG),
   ("timesofindia.indiatimes.com", TIMES_OF_INDIA_CONFIG),
   ("www.timesofindia.indiatimes.com", TIMES_OF_INDIA_CONFIG),
   ("*", GENERIC_CONFIG)]

def lookupConfig (k : String) : Option SiteConfig :=
  (SITE_CONFIGS.find? (fun p => p.1 = k)).map Prod.snd

/-- `get_site_config_by_domain` (src/config/sites.py lines 66-91):
lowercase, strip one `www.`, exact match, `www.`-prefixed match, else
the wildcard config. -/
def get_site_config_by_domain (domain : String) : SiteConfig :=
  let d0 := lowerStr domain
  let nd := if List.isPrefixOf "www.".data d0.data then d0.drop 4 else d0
  match lookupConfig nd with
  | some c => c
  | none =>
    match lookupConfig ("www." ++ nd) with
    | some c => c
    | none => GENERIC_CONFIG

/-- `ParsedContent` (parser.py lines 22-35); `publish_date` values are
opaque datetime results of the `strptime` collaborator. -/
structure ParsedContent where
  title : Option String := none
  content : String := ""
  author : Option String := none
  publish_date : Option Int := none
  word_count : Nat := 0
  paragraph_count : Nat := 0
  extraction_method : String := "unknown"
  confidence_score : ℚ := 0.0
  raw_html : String := ""
  url : String := ""
deriving DecidableEq

/-- `HTMLParser._calculate_confidence` (parser.py lines 396-440).
`if title and len(title) > 10` / `if author` test Python truthiness of
the optional strings. -/
def p_calculate_confidence (title : Option String) (content : String)
    (author : Option String) (publish_date : Option Int)
    (word_count : Nat) : ℚ :=
  let s0 : ℚ := 0
  let s1 :=
    if (match title with
        | some t => t ≠ "" && t.length > 10
        | none => false) then s0 + 0.25 else s0
  let s2 :=
    if content ≠ "" then
      if word_count > 100 then s1 + 0.5
      else if word_count > 50 then s1 + 0.3
      else if word_count > 20 then s1 + 0.1
      else s1
    else s1
  let s3 :=
    if (match author with
        | some a => !(a = "")
        | none => false) then s2 + 0.15 else s2
  let s4 :=
    if publish_date.isSome then s3 + 0.1 else s3
  min s4 1.0

/-- `HTMLParser._extract_title` (parser.py lines 217-231): first
selected element whose cleaned text is nonempty and longer than 10
characters. -/
def p_extract_title (select : String → HForest → List HNode)
    (soup : HForest) (selector : String) : Option String :=
  if selector = "" then none
  else
    (select selector soup).findSome? (fun e =>
      let t := p_clean_text (getTextRaw e)
      if t ≠ "" ∧ t.length > 10 then some t else none)

/-- `HTMLParser._extract_content` (parser.py lines 233-249): cleaned
texts of the selected elements with more than 5 words. -/
def p_extract_content (select : String → HForest → List HNode)
    (soup : HForest) (selector : String) : List String :=
  if selector = "" then []
  else
    ((select selector soup).map (fun e => p_clean_text (getTextRaw e))).filter
      (fun t => decide (t ≠ "" ∧ wordCount t > 5))

/-- `HTMLParser._extract_author` (parser.py lines 251-265): first
selected element whose cleaned text is nonempty and shorter than 100
characters. -/
def p_extract_author (select : String → HForest → List HNode)
    (soup : HForest) (selector : Option String) : Option String :=
  match selector with
  | none => none
  | some sel =>
    if sel = "" then none
    else
      (select sel soup).findSome? (fun e =>
        let t := p_clean_text (getTextRaw e)
        if t ≠ "" ∧ t.length < 100 then some t else none)

/-- `HTMLParser._extract_date` (parser.py lines 267-287): on the first
element with a truthy `datetime` attribute or truthy cleaned text,
return the `strptime` collaborator's result (possibly `none`). -/
def p_extract_date (select : String → HForest → List HNode)
    (parseDT : String → Option Int)
    (soup : HForest) (selector : Option String) : Option Int :=
  match selector with
  | none => none
  | some sel =>
    if sel = "" then none
    else
      match (select sel soup).findSome? (fun e =>
          let dtAttr :=
            match e with
            | .elem _ a _ => a.datetimeAttr
            | _ => none
          match dtAttr with
          | some d => if d ≠ "" then some d else
              (let t := p_clean_text (getTextRaw e)
               if t ≠ "" then some t else none)
          | none =>
            let t := p_clean_text (getTextRaw e)
            if t ≠ "" then some t else none) with
      | some v => parseDT v
      | none => none

/-- `HTMLParser._extract_generic_title` (parser.py lines 289-304). -/
def p_extract_generic_title (select : String → HForest → List HNode)
    (soup : HForest) : Option String :=
  ["h1", ".title", ".headline", "[class*='title']", "[class*='headline']"].findSome?
    (fun sel => p_extract_title select soup sel)

/-- `HTMLParser._extract_generic_content` (parser.py lines 306-322):
first generic selector yielding more than 2 paragraphs. -/
def p_extract_generic_content (select : String → HForest → List HNode)
    (soup : HForest) : List String :=
  match ["article p", ".content p", ".article-body p", ".story p", "main p", "p"].findSome?
      (fun sel =>
        let ps := p_extract_content select soup sel
        if ps ≠ [] ∧ ps.length > 2 then some ps else none) with
  | some ps => ps
  | none => []

/-- `HTMLParser._extract_generic_author` (parser.py lines 324-339). -/
def p_extract_generic_author (select : String → HForest → List HNode)
    (soup : HForest) : Option String :=
  [".author", ".byline", ".writer", "[class*='author']", "[class*='byline']"].findSome?
    (fun sel => p_extract_author select soup (some sel))

/-- `HTMLParser._extract_generic_date` (parser.py lines 341-356). -/
def p_extract_generic_date (select : String → HForest → List HNode)
    (parseDT : String → Option Int) (soup : HForest) : Option Int :=
  ["time", ".date", ".published", "[class*='date']", "[class*='time']"].findSome?
    (fun sel => p_extract_date select parseDT soup (some sel))

/-- `HTMLParser._extract_with_site_config` (parser.py lines 96-148).
`if not self.soup` tests BeautifulSoup truthiness, i.e. whether the
parsed tree has any top-level contents; `self.site_config` is always a
(truthy) dataclass here. -/
def p_extract_with_site_config (select : String → HForest → List HNode)
    (parseDT : String → Option Int)
    (soup : HForest) (cfg : SiteConfig) (url raw_html : String) : ParsedContent :=
  match soup with
  | .nil =>
    { url := url, raw_html := raw_html
      extraction_method := "no_config", confidence_score := 0.0 }
  | _ =>
    let title := p_extract_title select soup cfg.title_selector
    let content_paragraphs := p_extract_content select soup cfg.content_selector
    let content := joinWith "\n\n" content_paragraphs
    let author := p_extract_author select soup cfg.author_selector
    let publish_date := p_extract_date select parseDT soup cfg.date_selector
    let word_count := if content ≠ "" then wordCount content else 0
    let paragraph_count := content_paragraphs.length
    { title := title
      content := content
      author := author
      publish_date := publish_date
      word_count := word_count
      paragraph_count := paragraph_count
      extraction_method := "site_specific_" ++ cfg.domain
      confidence_score :=
        p_calculate_confidence title content author publish_date word_count
      raw_html := raw_html
      url := url }

/-- `str.replace(' ', '_')` for the fallback method label. -/
def spaceToUnderscore (s : String) : String :=
  String.mk (s.data.map (fun c => if c = ' ' then '_' else c))

/-- The fallback-selector loop of `_extract_with_fallback` (parser.py
lines 173-177): `content_paragraphs` keeps the LAST attempted
selector's result when no selector yields more than 2 paragraphs. -/
def p_try_fallback_selectors (select : String → HForest → List HNode)
    (soup : HForest) : List String → List String × String
  | [] => ([], "generic_fallback")
  | [sel] =>
    let ps := p_extract_content select soup sel
    if ps ≠ [] ∧ ps.length > 2 then (ps, "fallback_" ++ spaceToUnderscore sel)
    else (ps, "generic_fallback")
  | sel :: rest =>
    let ps := p_extract_content select soup sel
    if ps ≠ [] ∧ ps.length > 2 then (ps, "fallback_" ++ spaceToUnderscore sel)
    else p_try_fallback_selectors select soup rest

/-- `HTMLParser._extract_with_fallback` (parser.py lines 150-215); the
confidence is the metadata formula times 0.7. -/
def p_extract_with_fallback (select : String → HForest → List HNode)
    (parseDT : String → Option Int)
    (soup : HForest) (cfg : SiteConfig) (url raw_html : String) : ParsedContent :=
  match soup with
  | .nil =>
    { url := url, raw_html := raw_html
      extraction_method := "no_fallback", confidence_score := 0.0 }
  | _ =>
    let r := p_try_fallback_selectors select soup cfg.fallback_selectors
    let withGeneric :=
      if r.1 = [] then (p_extract_generic_content select soup, "generic_extraction")
      else r
    let content_paragraphs := withGeneric.1
    let fallback_method := withGeneric.2
    let content := joinWith "\n\n" content_paragraphs
    let title := p_extract_generic_title select soup
    let author := p_extract_generic_author select soup
    let publish_date := p_extract_generic_date select parseDT soup
    let word_count := if content ≠ "" then wordCount content else 0
    let paragraph_count := content_paragraphs.length
    { title := title
      content := content
      author := author
      publish_date := publish_date
      word_count := word_count
      paragraph_count := paragraph_count
      extraction_method := fallback_method
      confidence_score :=
        p_calculate_confidence title content author publish_date word_count * 0.7
      raw_html := raw_html
      url := url }

/-- `HTMLParser.parse` (parser.py lines 51-86).  `htmlParse` is the
`BeautifulSoup(html, 'html.parser')` collaborator (it never throws and
yields the top-level contents); `domainOf` is the `urlparse`-based
`_extract_domain`. -/
def HTMLParser_parse (select : String → HForest → List HNode)
    (parseDT : String → Option Int)
    (htmlParse : String → HForest) (domainOf : String → String)
    (html url : String) : ParsedContent :=
  if html = "" ∨ pystrip html = "" then
    { url := url, raw_html := html
      extraction_method := "empty_input", confidence_score := 0.0 }
  else
    let soup := htmlParse html
    let cfg := get_site_config_by_domain (domainOf url)
    let result := p_extract_with_site_config select parseDT soup cfg url html
    if result.confidence_score < 0.5 then
      let fallback_result := p_extract_with_fallback select parseDT soup cfg url html
      if fallback_result.confidence_score > result.confidence_score then fallback_result
      else result
    else result

theorem calculate_confidence_score_nonneg (c m : String) :
    0 ≤ calculate_confidence_score c m := by
  unfold calculate_confidence_score
  split
  · exact le_refl 0
  · exact le_min (le_max_right _ 0) (by norm_num)

theorem calculate_confidence_score_le_one (c m : String) :
    calculate_confidence_score c m ≤ 1 := by
  unfold calculate_confidence_score
  split
  · norm_num
  · exact min_le_right _ _

theorem create_result_method (st : List String) (c m : String) :
    (create_result st c m).extraction_method = m := by
  unfold create_result
  split <;> rfl

theorem create_result_conf_nonneg (st : List String) (c m : String) :
    0 ≤ (create_result st c m).confidence_score := by
  unfold create_result
  split
  · norm_num
  · exact calculate_confidence_score_nonneg c m

theorem create_result_conf_le_one (st : List String) (c m : String) :
    (create_result st c m).confidence_score ≤ 1 := by
  unfold create_result
  split
  · norm_num
  · exact calculate_confidence_score_le_one c m

/-- The well-formedness properties claim C1 asks of every returned
`ExtractedContent`. -/
def ResultWellFormed (r : ExtractedContent) : Prop :=
  0 ≤ r.confidence_score ∧ r.confidence_score ≤ 1 ∧
  (r.extraction_method = "error" →
    r.confidence_score = 0 ∧ r.error_details ≠ [])

theorem create_error_result_wf (msg et : String) (d : List (String × String)) :
    ResultWellFormed (create_error_result msg et d) := by
  unfold ResultWellFormed create_error_result
  exact ⟨by norm_num, by norm_num, fun _ => ⟨by norm_num, by simp⟩⟩

theorem create_result_wf_of_ne (st : List String) (c m : String)
    (hm : m ≠ "error") : ResultWellFormed (create_result st c m) := by
  refine ⟨create_result_conf_nonneg st c m, create_result_conf_le_one st c m, fun h => ?_⟩
  rw [create_result_method] at h
  exact absurd h hm

theorem extracted_warn_wf (r : ExtractedContent) (w : String × String)
    (h : ResultWellFormed r) :
    ResultWellFormed { r with error_details := r.error_details ++ [w] } := by
  obtain ⟨h1, h2, h3⟩ := h
  refine ⟨h1, h2, fun hm => ?_⟩
  have hm2 : r.extraction_method = "error" := hm
  exact ⟨(h3 hm2).1, by simp⟩

theorem extract_cascade_rest_wf (st2 : List String) (soup2 : HForest) :
    ResultWellFormed (extract_cascade_rest st2 soup2) := by
  unfold extract_cascade_rest
  split
  · exact create_result_wf_of_ne _ _ "readability" (by decide)
  · split
    · exact extracted_warn_wf _ _ (create_result_wf_of_ne _ _ "generic_fallback" (by decide))
    · exact create_result_wf_of_ne _ _ "generic_fallback" (by decide)

theorem extract_parsed_wf (select : String → HForest → List HNode)
    (st2 : List String) (soup2 : HForest) (sels : Option SelectorsDict) :
    ResultWellFormed (extract_parsed select st2 soup2 sels) := by
  cases sels with
  | none => exact extract_cascade_rest_wf st2 soup2
  | some sc =>
    show ResultWellFormed (if _ ∧ _ then
      create_result st2 (extract_with_selectors select soup2 sc) "site_specific"
      else extract_cascade_rest st2 soup2)
    by_cases hgate : extract_with_selectors select soup2 sc ≠ "" ∧
        is_good_content (extract_with_selectors select soup2 sc)
    · rw [if_pos hgate]
      exact create_result_wf_of_ne _ _ "site_specific" (by decide)
    · rw [if_neg hgate]
      exact extract_cascade_rest_wf st2 soup2

/-- C1: for every HTML input (None, non-string, empty, or any parse
outcome) `extract_content` is total — modelled as a Lean function it
always returns an `ExtractedContent` — and error cases are returned
data: whenever the result's `extraction_method` is `"error"` its
confidence is 0 and its `error_details` are populated (and every
confidence is in [0,1]). -/
theorem extract_content_never_raises
    (select : String → HForest → List HNode)
    (parseHtml : String → Option HForest)
    (st : List String) (html : HtmlInput) (sels : Option SelectorsDict) :
    ResultWellFormed (extract_content select parseHtml st html sels).1 := by
  cases html with
  | pynone =>
    exact create_error_result_wf "HTML input is None" "NULL_INPUT"
      [("input_type", "NoneType")]
  | nonString tn pv =>
    exact create_error_result_wf ("HTML input must be string, got " ++ tn)
      "INVALID_INPUT_TYPE" [("input_type", tn), ("input_value", pv)]
  | str s =>
    by_cases h : pystrip s = ""
    · simp only [extract_content, if_pos h]
      exact ⟨by norm_num [empty_input_result], by norm_num [empty_input_result],
        fun hm => by simp [empty_input_result] at hm⟩
    · simp only [extract_content, if_neg h]
      unfold extract_str_body
      split
      · exact create_error_result_wf "Failed to parse HTML content" "HTML_PARSE_ERROR" _
      · exact extract_parsed_wf select _ _ sels

/-- C10: a whitespace-only (or empty) string input returns the
`empty_input` result — clean_text `""`, zero counts, confidence 0,
`extraction_method = "empty_input"` (not `"error"`), and a warning
rather than a `NULL_INPUT`/`HTML_PARSE_ERROR` classification. -/
theorem extract_content_empty_input
    (select : String → HForest → List HNode)
    (parseHtml : String → Option HForest)
    (st : List String) (s : String) (sels : Option SelectorsDict)
    (h : pystrip s = "") :
    (extract_content select parseHtml st (.str s) sels).1.clean_text = "" ∧
    (extract_content select parseHtml st (.str s) sels).1.word_count = 0 ∧
    (extract_content select parseHtml st (.str s) sels).1.paragraph_count = 0 ∧
    (extract_content select parseHtml st (.str s) sels).1.extraction_method = "empty_input" ∧
    (extract_content select parseHtml st (.str s) sels).1.confidence_score = 0 ∧
    (extract_content select parseHtml st (.str s) sels).1.extraction_method ≠ "error" ∧
    (extract_content select parseHtml st (.str s) sels).1.error_details =
      [("warning", "Empty HTML input")] := by
  simp only [extract_content, if_pos h]
  refine ⟨rfl, rfl, rfl, rfl, by norm_num [empty_input_result], ?_, rfl⟩
  intro hm
  simp [empty_input_result] at hm

/-- Witness for C10 at a concrete whitespace-only input. -/
theorem extract_content_empty_input_witness :
    pystrip "  \t " = "" ∧
    (extract_content (fun _ _ => []) (fun _ => none) [] (.str "  \t ") none).1.extraction_method
      = "empty_input" :=
  ⟨by decide, (extract_content_empty_input (fun _ _ => []) (fun _ => none) [] "  \t " none
      (by decide)).2.2.2.1⟩

/-- C4: whenever the cleaned site-specific candidate (the profile's
`content_selector` result) passes the quality gate, the returned result
is exactly the site-specific one — `extraction_method = "site_specific"`
— and the readability/generic strategies contribute nothing to it. -/
theorem site_specific_priority
    (select : String → HForest → List HNode)
    (parseHtml : String → Option HForest)
    (st : List String) (s : String) (sels : SelectorsDict) (soup : HForest)
    (hs : pystrip s ≠ "")
    (hp : parseHtml (handle_encoding_issues s) = some soup)
    (hgate : extract_with_selectors select (sanitize_tree soup) sels ≠ "" ∧
      is_good_content (extract_with_selectors select (sanitize_tree soup) sels)) :
    (extract_content select parseHtml st (.str s) (some sels)).1 =
      create_result (st ++ sanitize_log soup)
        (extract_with_selectors select (sanitize_tree soup) sels) "site_specific" ∧
    (extract_content select parseHtml st (.str s) (some sels)).1.extraction_method
      = "site_specific" := by
  have heq : (extract_content select parseHtml st (.str s) (some sels)).1 =
      create_result (st ++ sanitize_log soup)
        (extract_with_selectors select (sanitize_tree soup) sels) "site_specific" := by
    simp only [extract_content, if_neg hs]
    unfold extract_str_body
    rw [hp]
    show (if extract_with_selectors select (sanitize_tree soup) sels ≠ "" ∧
        is_good_content (extract_with_selectors select (sanitize_tree soup) sels) then
        create_result (st ++ sanitize_log soup)
          (extract_with_selectors select (sanitize_tree soup) sels) "site_specific"
      else extract_cascade_rest (st ++ sanitize_log soup) (sanitize_tree soup)) = _
    rw [if_pos hgate]
  exact ⟨heq, by rw [heq]; exact create_result_method _ _ _⟩

/-- A 51-word three-word-sentence sample passing the quality gate. -/
def sampleText : String :=
  String.join (List.replicate 17 "good news here. ")

/-- A plain `div` wrapping `sampleText`. -/
def sampleDiv : HNode :=
  .elem "div" {} (.cons (.text sampleText) .nil)

def sampleSoup : HForest :=
  .cons sampleDiv .nil

/-- A parse collaborator returning `sampleSoup` for every input. -/
def sampleParse : String → Option HForest :=
  fun _ => some sampleSoup

/-- The soupsieve collaborator for the single CSS type selector `div`:
all `div` elements in document order. -/
def selDiv : String → HForest → List HNode :=
  fun sel f => if sel = "div" then findAllTag "div" f else []

set_option maxRecDepth 100000 in
/-- Witness for C4: the concrete gate-passing document is answered with
the site-specific method. -/
theorem site_specific_priority_witness :
    pystrip "x" ≠ "" ∧
    (extract_content selDiv sampleParse [] (.str "x")
      (some { content_selector := some "div" })).1.extraction_method = "site_specific" :=
  ⟨by decide,
   (site_specific_priority selDiv sampleParse [] "x" { content_selector := some "div" }
      sampleSoup (by decide) rfl ⟨by decide, by decide⟩).2⟩

theorem clamp_mono {a b : ℚ} (h : a ≤ b) :
    min (max a 0) 1 ≤ min (max b 0) 1 :=
  min_le_min (max_le_max h le_rfl) le_rfl

theorem calculate_confidence_score_mono (content : String) (m1 m2 : String)
    (h : method_scores m1 ≤ method_scores m2) :
    calculate_confidence_score content m1 ≤ calculate_confidence_score content m2 := by
  unfold calculate_confidence_score
  by_cases hc : content = ""
  · simp [hc]
  · rw [if_neg hc, if_neg hc]
    apply clamp_mono
    split_ifs <;> linarith

/-- C5: for a fixed content text the computed confidence is monotone in
the extraction method: site_specific ≥ readability ≥ generic_fallback. -/
theorem confidence_method_monotone (content : String) :
    calculate_confidence_score content "generic_fallback" ≤
      calculate_confidence_score content "readability" ∧
    calculate_confidence_score content "readability" ≤
      calculate_confidence_score content "site_specific" :=
  ⟨calculate_confidence_score_mono content _ _
      (by rw [show method_scores "generic_fallback" = 0.4 from rfl,
              show method_scores "readability" = 0.6 from rfl]; norm_num),
   calculate_confidence_score_mono content _ _
      (by rw [show method_scores "readability" = 0.6 from rfl,
              show method_scores "site_specific" = 0.8 from rfl]; norm_num)⟩

/-- The confidence formula exactly as claim C6 words it: method base
plus word-count tier, plus 0.1 for more than 5 sentence segments, plus
0.1 for more than 2 paragraph BREAKS (occurrences of the `\n\n`
separator, i.e. one less than the number of split parts), clamped. -/
def claimed_confidence_score (content method : String) : ℚ :=
  let wc := wordCount content
  let base : ℚ :=
    if method = "site_specific" then 0.8
    else if method = "readability" then 0.6
    else if method = "generic_fallback" then 0.4
    else 0.0
  let tier : ℚ :=
    if wc > 200 then 0.2 else if wc > 100 then 0.1 else if wc < 50 then -0.2 else 0
  let sentBonus : ℚ := if segsCount content.data > 5 then 0.1 else 0
  let paraBonus : ℚ := if (nnSplit content.data).length - 1 > 2 then 0.1 else 0
  min (max (base + tier + sentBonus + paraBonus) 0) 1

/-- The claim C6 formula amended only where the counterexample forces
it: the 0.1 paragraph bonus is granted when there are more than 2
`\n\n`-delimited paragraph SEGMENTS (i.e. at least 2 breaks), as the
source tests `len(content.split('\n\n')) > 2`. -/
def amended_confidence_score (content method : String) : ℚ :=
  let wc := wordCount content
  let base : ℚ :=
    if method = "site_specific" then 0.8
    else if method = "readability" then 0.6
    else if method = "generic_fallback" then 0.4
    else 0.0
  let tier : ℚ :=
    if wc > 200 then 0.2 else if wc > 100 then 0.1 else if wc < 50 then -0.2 else 0
  let sentBonus : ℚ := if segsCount content.data > 5 then 0.1 else 0
  let paraBonus : ℚ := if (nnSplit content.data).length > 2 then 0.1 else 0
  min (max (base + tier + sentBonus + paraBonus) 0) 1

/-- Counterexample to C6 as stated: a content with exactly 2 paragraph
breaks (3 segments).  The code grants the paragraph bonus
(`3 parts > 2`), the claim's "more than 2 paragraph breaks" does not,
so the values differ: 0.5 versus 0.4. -/
theorem confidence_formula_counterexample :
    calculate_confidence_score "aaa bbb\n\nccc ddd\n\neee fff" "readability" = 0.5 ∧
    claimed_confidence_score "aaa bbb\n\nccc ddd\n\neee fff" "readability" = 0.4 ∧
    (0.5 : ℚ) ≠ 0.4 := by
  refine ⟨?_, ?_, by norm_num⟩
  · unfold calculate_confidence_score
    rw [if_neg (by decide)]
    rw [show wordCount "aaa bbb\n\nccc ddd\n\neee fff" = 6 from rfl,
        show segsCount "aaa bbb\n\nccc ddd\n\neee fff".data = 1 from rfl,
        show (nnSplit "aaa bbb\n\nccc ddd\n\neee fff".data).length = 3 from rfl,
        show method_scores "readability" = 0.6 from rfl]
    norm_num
  · unfold claimed_confidence_score
    rw [show wordCount "aaa bbb\n\nccc ddd\n\neee fff" = 6 from rfl,
        show segsCount "aaa bbb\n\nccc ddd\n\neee fff".data = 1 from rfl,
        show (nnSplit "aaa bbb\n\nccc ddd\n\neee fff".data).length = 3 from rfl]
    rw [if_neg (show ¬("readability" : String) = "site_specific" by decide),
        if_pos (rfl : ("readability" : String) = "readability")]
    norm_num

set_option maxHeartbeats 2000000 in
/-- C6 (amended): for nonempty content and the four listed methods, the
code's confidence equals base + word tier + sentence bonus + paragraph
bonus (the latter for > 2 paragraph segments), clamped to [0,1]. -/
theorem confidence_formula_amended (content method : String) (hc : content ≠ "")
    (hm : method = "site_specific" ∨ method = "readability" ∨
      method = "generic_fallback" ∨ method = "error") :
    calculate_confidence_score content method =
      amended_confidence_score content method := by
  have hb : method_scores method =
      (if method = "site_specific" then (0.8 : ℚ)
       else if method = "readability" then 0.6
       else if method = "generic_fallback" then 0.4
       else 0.0) := by
    rcases hm with h | h | h | h <;> subst h <;> rfl
  unfold calculate_confidence_score amended_confidence_score
  rw [if_neg hc, hb]
  dsimp only
  exact congrArg (fun z : ℚ => min (max z 0) 1) (by split_ifs <;> ring)

/-- Witness for the amended C6 at a concrete content and method. -/
theorem confidence_formula_amended_witness :
    ("aaa bbb\n\nccc ddd\n\neee fff" : String) ≠ "" ∧
    calculate_confidence_score "aaa bbb\n\nccc ddd\n\neee fff" "readability" =
      amended_confidence_score "aaa bbb\n\nccc ddd\n\neee fff" "readability" :=
  ⟨by decide,
   confidence_formula_amended "aaa bbb\n\nccc ddd\n\neee fff" "readability"
     (by decide) (Or.inr (Or.inl rfl))⟩

/-- The readability score exactly as claim C2 words it: +10 per content
pattern, -5 per boilerplate pattern, word tiers >200→+20 / >100→+10 /
>50→+5, +15 for more than 3 `p` descendants (else +5 for more than 1),
-10 for more than 10 descendant links, floored at 0. -/
def claimed_element_score (n : HNode) : ℚ :=
  match n with
  | .elem _ a _ =>
    max (10 * ((CONTENT_PATTERNS.filter (fun p => containsSub p (text_to_check a))).length : ℚ)
      - 5 * ((BOILERPLATE_PATTERNS.filter (fun p => containsSub p (text_to_check a))).length : ℚ)
      + (if wordCount (getTextStrip n) > 200 then 20
         else if wordCount (getTextStrip n) > 100 then 10
         else if wordCount (getTextStrip n) > 50 then 5 else 0)
      + (if ((descN n).filter (isElemTag "p")).length > 3 then 15
         else if ((descN n).filter (isElemTag "p")).length > 1 then 5 else 0)
      - (if ((descN n).filter (isElemTag "a")).length > 10 then 10 else 0)) 0
  | _ => 0

/-- The claim C2 formula amended only where the code forces it: the word
tiers are >100→+20 / >50→+10 / >20→+5, and the word-count and
paragraph bonuses apply only when the element's stripped text is
nonempty (the source computes them under `if text_content:`). -/
def amended_element_score (n : HNode) : ℚ :=
  match n with
  | .elem _ a _ =>
    max (10 * ((CONTENT_PATTERNS.filter (fun p => containsSub p (text_to_check a))).length : ℚ)
      - 5 * ((BOILERPLATE_PATTERNS.filter (fun p => containsSub p (text_to_check a))).length : ℚ)
      + (if getTextStrip n ≠ "" then
          (if wordCount (getTextStrip n) > 100 then 20
           else if wordCount (getTextStrip n) > 50 then 10
           else if wordCount (getTextStrip n) > 20 then 5 else 0)
          + (if ((descN n).filter (isElemTag "p")).length > 3 then 15
             else if ((descN n).filter (isElemTag "p")).length > 1 then 5 else 0)
         else 0)
      - (if ((descN n).filter (isElemTag "a")).length > 10 then 10 else 0)) 0
  | _ => 0

/-- 150 words of four letters each. -/
def w150 : String := String.join (List.replicate 150 "abcd ")

/-- A 150-word plain `div` (no class/id, no `p` children, no links). -/
def div150 : HNode := .elem "div" {} (.cons (.text w150) .nil)

set_option maxRecDepth 100000 in
/-- Counterexample to C2 as stated: on a 150-word plain `div` the code
scores +20 (its tier is `>100→+20`), while the claim's tier table
(`>100→+10`) yields 10. -/
theorem score_formula_counterexample :
    score_content_element div150 = 20 ∧ claimed_element_score div150 = 10 ∧
    ((20 : ℚ) ≠ 10) := by
  have hwc : wordCount (getTextStrip (HNode.elem "div" {} (.cons (.text w150) .nil))) = 150 := rfl
  have hne : getTextStrip (HNode.elem "div" {} (.cons (.text w150) .nil)) ≠ "" := by decide
  have hp : ((descN (HNode.elem "div" {} (.cons (.text w150) .nil))).filter (isElemTag "p")).length = 0 := rfl
  have ha : ((descN (HNode.elem "div" {} (.cons (.text w150) .nil))).filter (isElemTag "a")).length = 0 := rfl
  have hcp : ((CONTENT_PATTERNS.filter (fun p => containsSub p (text_to_check {}))).length) = 0 := rfl
  have hbp : ((BOILERPLATE_PATTERNS.filter (fun p => containsSub p (text_to_check {}))).length) = 0 := rfl
  refine ⟨?_, ?_, by norm_num⟩
  · norm_num [score_content_element, div150, hwc, hne, hp, ha, hcp, hbp]
  · norm_num [claimed_element_score, div150, hwc, hp, ha, hcp, hbp]

/-- C2 (amended): the readability element score equals the claim's
formula with the source's word tiers (>100→+20, >50→+10, >20→+5) and
with the word/paragraph bonuses conditional on nonempty element text. -/
theorem score_formula_amended (n : HNode) :
    score_content_element n = amended_element_score n := by
  cases n with
  | text s => rfl
  | comment s => rfl
  | elem t a cs =>
    unfold score_content_element amended_element_score
    dsimp only
    exact congrArg (fun z : ℚ => max z 0) (by split_ifs <;> ring)

/-- C8: in `HTMLParser.parse` (non-empty input) the generic fallback
pass is consulted exactly when the site-specific pass's combined
confidence is below 0.5; when it runs, the higher-confidence result is
kept (the returned confidence is the max of the two); and the fallback
result's confidence is the metadata-confidence formula's value times
0.7. -/
theorem metadata_fallback_policy
    (select : String → HForest → List HNode) (parseDT : String → Option Int)
    (htmlParse : String → HForest) (domainOf : String → String)
    (html url : String) (primary fb : ParsedContent)
    (hne : ¬(html = "" ∨ pystrip html = ""))
    (hpr : primary = p_extract_with_site_config select parseDT (htmlParse html)
      (get_site_config_by_domain (domainOf url)) url html)
    (hfb : fb = p_extract_with_fallback select parseDT (htmlParse html)
      (get_site_config_by_domain (domainOf url)) url html) :
    (¬ primary.confidence_score < 0.5 →
      HTMLParser_parse select parseDT htmlParse domainOf html url = primary) ∧
    (primary.confidence_score < 0.5 →
      HTMLParser_parse select parseDT htmlParse domainOf html url =
        (if fb.confidence_score > primary.confidence_score then fb else primary) ∧
      (HTMLParser_parse select parseDT htmlParse domainOf html url).confidence_score =
        max primary.confidence_score fb.confidence_score) ∧
    fb.confidence_score =
      p_calculate_confidence fb.title fb.content fb.author fb.publish_date fb.word_count
        * 0.7 := by
  subst hpr
  subst hfb
  refine ⟨?_, ?_, ?_⟩
  · intro h
    unfold HTMLParser_parse
    rw [if_neg hne, if_neg h]
  · intro h
    unfold HTMLParser_parse
    rw [if_neg hne, if_pos h]
    refine ⟨rfl, ?_⟩
    by_cases hgt : (p_extract_with_fallback select parseDT (htmlParse html)
        (get_site_config_by_domain (domainOf url)) url html).confidence_score >
        (p_extract_with_site_config select parseDT (htmlParse html)
          (get_site_config_by_domain (domainOf url)) url html).confidence_score
    · rw [if_pos hgt, max_eq_right (le_of_lt hgt)]
    · rw [if_neg hgt, max_eq_left (not_lt.mp hgt)]
  · unfold p_extract_with_fallback
    cases htmlParse html with
    | nil =>
      show (0.0 : ℚ) = p_calculate_confidence none "" none none 0 * 0.7
      norm_num [p_calculate_confidence]
    | cons n r => rfl

def noSel : String → HForest → List HNode := fun _ _ => []

def noDT : String → Option Int := fun _ => none

def oneTextParse : String → HForest := fun _ => .cons (.text "x") .nil

def noDomain : String → String := fun _ => ""

/-- Witness for C8 at concrete collaborators and inputs. -/
theorem metadata_fallback_policy_witness :
    ¬(("x" : String) = "" ∨ pystrip "x" = "") ∧
    (p_extract_with_fallback noSel noDT (oneTextParse "x")
        (get_site_config_by_domain (noDomain "u")) "u" "x").confidence_score =
      p_calculate_confidence
        (p_extract_with_fallback noSel noDT (oneTextParse "x")
          (get_site_config_by_domain (noDomain "u")) "u" "x").title
        (p_extract_with_fallback noSel noDT (oneTextParse "x")
          (get_site_config_by_domain (noDomain "u")) "u" "x").content
        (p_extract_with_fallback noSel noDT (oneTextParse "x")
          (get_site_config_by_domain (noDomain "u")) "u" "x").author
        (p_extract_with_fallback noSel noDT (oneTextParse "x")
          (get_site_config_by_domain (noDomain "u")) "u" "x").publish_date
        (p_extract_with_fallback noSel noDT (oneTextParse "x")
          (get_site_config_by_domain (noDomain "u")) "u" "x").word_count * 0.7 :=
  ⟨by decide,
   (metadata_fallback_policy noSel noDT oneTextParse noDomain "x" "u" _ _
      (by decide) rfl rfl).2.2⟩

theorem create_result_removed (st : List String) (c m : String) :
    (create_result st c m).removed_elements = st := by
  unfold create_result
  split <;> rfl

theorem extract_cascade_rest_removed (st2 : List String) (soup2 : HForest) :
    (extract_cascade_rest st2 soup2).removed_elements = st2 := by
  unfold extract_cascade_rest
  split
  · exact create_result_removed _ _ _
  · split
    · show (create_result st2 (extract_generic_content soup2) "generic_fallback").removed_elements = st2
      exact create_result_removed _ _ _
    · exact create_result_removed _ _ _

theorem extract_parsed_removed (select : String → HForest → List HNode)
    (st2 : List String) (soup2 : HForest) (sels : Option SelectorsDict) :
    (extract_parsed select st2 soup2 sels).removed_elements = st2 := by
  cases sels with
  | none => exact extract_cascade_rest_removed st2 soup2
  | some sc =>
    show (if _ ∧ _ then
      create_result st2 (extract_with_selectors select soup2 sc) "site_specific"
      else extract_cascade_rest st2 soup2).removed_elements = st2
    by_cases hgate : extract_with_selectors select soup2 sc ≠ "" ∧
        is_good_content (extract_with_selectors select soup2 sc)
    · rw [if_pos hgate]
      exact create_result_removed _ _ _
    · rw [if_neg hgate]
      exact extract_cascade_rest_removed st2 soup2

/-- C3 (amended): the removal log is NOT reset between calls — the exit
state extends the entry state `st` by this call's removals, and on the
parse-success path the returned result's `removed_elements` is the full
accumulated log, entry state included.  Per-call scoping therefore
holds only for the first call on a fresh instance. -/
theorem removal_log_accumulates (select : String → HForest → List HNode)
    (parseHtml : String → Option HForest)
    (st : List String) (s : String) (sels : Option SelectorsDict) (soup : HForest)
    (hs : pystrip s ≠ "")
    (hp : parseHtml (handle_encoding_issues s) = some soup) :
    (extract_content select parseHtml st (.str s) sels).2 = st ++ sanitize_log soup ∧
    (extract_content select parseHtml st (.str s) sels).1.removed_elements =
      st ++ sanitize_log soup := by
  simp only [extract_content, if_neg hs]
  unfold extract_str_body
  rw [hp]
  exact ⟨rfl, extract_parsed_removed select _ _ sels⟩

/-- One document whose extraction removes a `nav` element. -/
def navSoup : HForest :=
  .cons (.elem "nav" {} (.cons (.text "menu") .nil)) .nil

/-- One document whose extraction removes nothing. -/
def plainSoup : HForest :=
  .cons (.elem "div" {} (.cons (.text "hello there") .nil)) .nil

/-- A parse collaborator serving `navSoup` for input `"a"` and
`plainSoup` otherwise. -/
def twoDocParse : String → Option HForest :=
  fun s => if s = "a" then some navSoup else some plainSoup

/-- Witness for the amended C3 at a concrete prior state. -/
theorem removal_log_accumulates_witness :
    pystrip "a" ≠ "" ∧
    (extract_content noSel twoDocParse ["old"] (.str "a") none).1.removed_elements =
      ["old"] ++ sanitize_log navSoup :=
  ⟨by decide,
   (removal_log_accumulates noSel twoDocParse ["old"] "a" none navSoup
      (by decide) rfl).2⟩

set_option maxRecDepth 100000 in
/-- Counterexample to C3 as stated: a second `extract_content` call on
the same instance (state threaded from the first call) reports
`tag:nav` in its `removed_elements`, although its own document
(`plainSoup`) yields no removal at all (`sanitize_log plainSoup = []`) —
the entry was carried over from the first call. -/
theorem removal_log_counterexample :
    (extract_content noSel twoDocParse [] (.str "a") none).2 = ["tag:nav"] ∧
    (extract_content noSel twoDocParse
        (extract_content noSel twoDocParse [] (.str "a") none).2
        (.str "b") none).1.removed_elements = ["tag:nav"] ∧
    sanitize_log plainSoup = [] := by
  refine ⟨rfl, ?_, rfl⟩
  rw [(removal_log_accumulates noSel twoDocParse
      (extract_content noSel twoDocParse [] (.str "a") none).2 "b" none plainSoup
      (by decide) rfl).2]
  rfl

/-- A predicate that looks only at a node's head (kind, tag, attrs) —
every predicate the boilerplate filter removes by is of this form, so
filtering below a node never changes its verdict. -/
def ShallowPred (p : HNode → Bool) : Prop :=
  ∀ (keep : HNode → Bool) (n : HNode), p (filterKeepN keep n) = p n

theorem shallow_isElemTag (t : String) : ShallowPred (isElemTag t) := by
  intro keep n
  cases n <;> rfl

theorem shallow_isBoilerplate : ShallowPred is_boilerplate_element := by
  intro keep n
  cases n <;> rfl

mutual
/-- Every node below a filtered node is the filtered image of a node
below the original that the filter kept. -/
theorem mem_filterKeepN {keep : HNode → Bool} :
    ∀ (n : HNode) (m : HNode), m ∈ descN (filterKeepN keep n) →
      ∃ n0, n0 ∈ descN n ∧ m = filterKeepN keep n0 ∧ keep n0 = true
  | .text _, m, h => by simp [filterKeepN, descN] at h
  | .comment _, m, h => by simp [filterKeepN, descN] at h
  | .elem t a cs, m, h => mem_filterKeepF cs m h
/-- Every node of a filtered forest is the filtered image of a node of
the original forest that the filter kept. -/
theorem mem_filterKeepF {keep : HNode → Bool} :
    ∀ (f : HForest) (m : HNode), m ∈ descF (filterKeepF keep f) →
      ∃ n0, n0 ∈ descF f ∧ m = filterKeepN keep n0 ∧ keep n0 = true
  | .nil, m, h => by simp [filterKeepF, descF] at h
  | .cons n r, m, h => by
    rw [show filterKeepF keep (.cons n r) =
        (if keep n then .cons (filterKeepN keep n) (filterKeepF keep r)
         else filterKeepF keep r) from rfl] at h
    by_cases hk : keep n
    · rw [if_pos hk] at h
      rw [show descF (HForest.cons (filterKeepN keep n) (filterKeepF keep r)) =
          filterKeepN keep n :: descN (filterKeepN keep n) ++ descF (filterKeepF keep r)
          from rfl] at h
      rcases List.mem_cons.mp h with hm | hm
      · exact ⟨n, by simp [descF], hm, hk⟩
      · rcases List.mem_append.mp hm with hm2 | hm2
        · obtain ⟨n0, hn0, hq, hkq⟩ := mem_filterKeepN n m hm2
          exact ⟨n0, by simp [descF, hn0], hq, hkq⟩
        · obtain ⟨n0, hn0, hq, hkq⟩ := mem_filterKeepF r m hm2
          exact ⟨n0, by simp [descF, hn0], hq, hkq⟩
    · rw [if_neg hk] at h
      obtain ⟨n0, hn0, hq, hkq⟩ := mem_filterKeepF r m h
      exact ⟨n0, by simp [descF, hn0], hq, hkq⟩
end

mutual
/-- Filtering is the identity when the filter keeps every node below. -/
theorem filterKeepN_id {keep : HNode → Bool} :
    ∀ n : HNode, (∀ m ∈ descN n, keep m = true) → filterKeepN keep n = n
  | .text _, _ => rfl
  | .comment _, _ => rfl
  | .elem t a cs, h => by
    show HNode.elem t a (filterKeepF keep cs) = .elem t a cs
    rw [filterKeepF_id cs h]
/-- Filtering is the identity on a forest whose nodes are all kept. -/
theorem filterKeepF_id {keep : HNode → Bool} :
    ∀ f : HForest, (∀ m ∈ descF f, keep m = true) → filterKeepF keep f = f
  | .nil, _ => rfl
  | .cons n r, h => by
    have hn : keep n = true := h n (by simp [descF])
    show (if keep n then HForest.cons (filterKeepN keep n) (filterKeepF keep r)
      else filterKeepF keep r) = .cons n r
    rw [if_pos hn,
      filterKeepN_id n (fun m hm => h m (by simp [descF]; exact Or.inr (Or.inl hm))),
      filterKeepF_id r (fun m hm => h m (by simp [descF]; exact Or.inr (Or.inr hm)))]
end

/-- After filtering with `!q`, no node satisfies the (shallow) `q`. -/
theorem filtered_establish {q : HNode → Bool} (hq : ShallowPred q) (f : HForest) :
    ∀ m ∈ descF (filterKeepF (fun n => !(q n)) f), q m = false := by
  intro m hm
  obtain ⟨n0, _, hqm, hk⟩ := mem_filterKeepF f m hm
  subst hqm
  rw [hq _ n0]
  simpa using hk

/-- Filtering preserves the absence of any shallow predicate. -/
theorem filtered_preserve {q keep : HNode → Bool} (hq : ShallowPred q) (f : HForest)
    (h : ∀ m ∈ descF f, q m = false) :
    ∀ m ∈ descF (filterKeepF keep f), q m = false := by
  intro m hm
  obtain ⟨n0, hn0, hqm, _⟩ := mem_filterKeepF f m hm
  subst hqm
  rw [hq keep n0]
  exact h n0 hn0

theorem findAllTag_eq_nil {t : String} {f : HForest}
    (h : ∀ m ∈ descF f, isElemTag t m = false) : findAllTag t f = [] := by
  unfold findAllTag
  rw [List.filter_eq_nil_iff]
  intro a ha
  simp [h a ha]

theorem remove_tag_pass_noop {label t : String} {f : HForest}
    (h : ∀ m ∈ descF f, isElemTag t m = false) :
    remove_tag_pass label t f = (f, []) := by
  unfold remove_tag_pass
  rw [findAllTag_eq_nil h, filterKeepF_id f (fun m hm => by simp [h m hm])]
  rfl

theorem pattern_pass_noop {f : HForest}
    (h : ∀ m ∈ descF f, is_boilerplate_element m = false) :
    pattern_pass f = (f, []) := by
  unfold pattern_pass
  rw [filterKeepF_id f (fun m hm => by simp [h m hm])]
  have hnil : ((elemsF f).filter is_boilerplate_element) = [] := by
    rw [List.filter_eq_nil_iff]
    intro a ha
    simp [h a (List.mem_of_mem_filter ha)]
  rw [hnil]
  rfl

/-- The sequential tag pass preserves the absence of any shallow
predicate. -/
theorem fold_tag_preserve (label : String) (ts : List String) {q : HNode → Bool}
    (hq : ShallowPred q) :
    ∀ f : HForest, (∀ m ∈ descF f, q m = false) →
      ∀ m ∈ descF (fold_tag_removals label ts f).1, q m = false := by
  induction ts with
  | nil => intro f h m hm; exact h m hm
  | cons t0 ts ih =>
    intro f h m hm
    rw [show (fold_tag_removals label (t0 :: ts) f).1 =
        (fold_tag_removals label ts (remove_tag_pass label t0 f).1).1 from rfl] at hm
    exact ih (remove_tag_pass label t0 f).1
      (filtered_preserve hq f h) m hm

/-- After the sequential tag pass, no processed tag remains. -/
theorem fold_tag_establish (label : String) (ts : List String) :
    ∀ (f : HForest) (t : String), t ∈ ts →
      ∀ m ∈ descF (fold_tag_removals label ts f).1, isElemTag t m = false := by
  induction ts with
  | nil => intro f t ht; cases ht
  | cons t0 ts ih =>
    intro f t ht m hm
    rw [show (fold_tag_removals label (t0 :: ts) f).1 =
        (fold_tag_removals label ts (remove_tag_pass label t0 f).1).1 from rfl] at hm
    rcases List.mem_cons.mp ht with h0 | h0
    · -- established by the `t0` pass, preserved through the rest
      have hbase : ∀ m2 ∈ descF (remove_tag_pass label t0 f).1, isElemTag t m2 = false := by
        rw [h0]
        exact filtered_establish (shallow_isElemTag t0) f
      exact fold_tag_preserve label ts (shallow_isElemTag t)
        (remove_tag_pass label t0 f).1 hbase m hm
    · exact ih (remove_tag_pass label t0 f).1 t h0 m hm

theorem fold_tag_noop (label : String) (ts : List String) (f : HForest)
    (h : ∀ t ∈ ts, ∀ m ∈ descF f, isElemTag t m = false) :
    fold_tag_removals label ts f = (f, []) := by
  induction ts with
  | nil => rfl
  | cons t0 ts ih =>
    have h0 : remove_tag_pass label t0 f = (f, []) :=
      remove_tag_pass_noop (h t0 (by simp))
    show ((fold_tag_removals label ts (remove_tag_pass label t0 f).1).1,
      (remove_tag_pass label t0 f).2 ++
        (fold_tag_removals label ts (remove_tag_pass label t0 f).1).2) = (f, [])
    rw [h0]
    have hrest : fold_tag_removals label ts f = (f, []) :=
      ih (fun t ht m hm => h t (by simp [ht]) m hm)
    rw [hrest]
    rfl

/-- `_remove_boilerplate_elements` does nothing on a tree that holds no
denylisted tag and no pattern-matching element. -/
theorem remove_boilerplate_noop {g : HForest}
    (htags : ∀ t ∈ BOILERPLATE_TAGS, ∀ m ∈ descF g, isElemTag t m = false)
    (hpat : ∀ m ∈ descF g, is_boilerplate_element m = false) :
    remove_boilerplate_elements g = (g, []) := by
  have h1 : fold_tag_removals "tag:" BOILERPLATE_TAGS g = (g, []) :=
    fold_tag_noop _ _ _ htags
  have h2 : pattern_pass g = (g, []) := pattern_pass_noop hpat
  simp [remove_boilerplate_elements, h1, h2]

theorem pattern_pass_fst (f : HForest) :
    (pattern_pass f).1 = filterKeepF (fun n => !(is_boilerplate_element n)) f := rfl

/-- C7: the boilerplate filter is idempotent — running
`_remove_boilerplate_elements` on an already-filtered tree leaves the
tree unchanged and removes (logs) nothing. -/
theorem boilerplate_filter_idempotent (f : HForest) :
    remove_boilerplate_elements ((remove_boilerplate_elements f).1) =
      ((remove_boilerplate_elements f).1, []) := by
  have hfold := fold_tag_establish "tag:" BOILERPLATE_TAGS f
  have hstep1 : ∀ t ∈ BOILERPLATE_TAGS,
      ∀ m ∈ descF (filterKeepF (fun n => !(is_boilerplate_element n))
        (fold_tag_removals "tag:" BOILERPLATE_TAGS f).1), isElemTag t m = false :=
    fun t ht => filtered_preserve (shallow_isElemTag t) _ (hfold t ht)
  have hstep2 : ∀ t ∈ BOILERPLATE_TAGS,
      ∀ m ∈ descF (filterKeepF (fun n => !(is_boilerplate_element n))
        (filterKeepF (fun n => !(is_boilerplate_element n))
          (fold_tag_removals "tag:" BOILERPLATE_TAGS f).1)), isElemTag t m = false :=
    fun t ht => filtered_preserve (shallow_isElemTag t) _ (hstep1 t ht)
  have hpat2 : ∀ m ∈ descF (filterKeepF (fun n => !(is_boilerplate_element n))
      (filterKeepF (fun n => !(is_boilerplate_element n))
        (fold_tag_removals "tag:" BOILERPLATE_TAGS f).1)), is_boilerplate_element m = false :=
    filtered_establish shallow_isBoilerplate _
  refine remove_boilerplate_noop (fun t ht m hm => ?_) (fun m hm => ?_)
  · simp only [remove_boilerplate_elements, pattern_pass_fst] at hm
    exact hstep2 t ht m hm
  · simp only [remove_boilerplate_elements, pattern_pass_fst] at hm
    exact hpat2 m hm

theorem wordsAux_len_pos (l : List Char) (c : Char) (cur : List Char) :
    1 ≤ (wordsAuxL l (c :: cur)).length := by
  induction l generalizing c cur with
  | nil => simp [wordsAuxL]
  | cons x xs ih =>
    rw [wordsAuxL]
    split
    · simp
    · exact ih x (c :: cur)

theorem wordsAux_len_cons_eq (l : List Char) (c1 c2 : Char) (cur1 cur2 : List Char) :
    (wordsAuxL l (c1 :: cur1)).length = (wordsAuxL l (c2 :: cur2)).length := by
  induction l generalizing c1 cur1 c2 cur2 with
  | nil => simp [wordsAuxL]
  | cons x xs ih =>
    rw [wordsAuxL, wordsAuxL]
    split
    · simp
    · exact ih x x (c1 :: cur1) (c2 :: cur2)

theorem wordsAux_len_nil_le (l : List Char) (c : Char) (cur : List Char) :
    (wordsAuxL l []).length ≤ (wordsAuxL l (c :: cur)).length := by
  induction l generalizing c cur with
  | nil => simp [wordsAuxL]
  | cons x xs ih =>
    rw [wordsAuxL, wordsAuxL]
    split
    · simp
    · exact le_of_eq (wordsAux_len_cons_eq xs x x [] (c :: cur))

theorem wordsAux_take_le (l : List Char) (k : Nat) (cur : List Char) :
    (wordsAuxL (l.take k) cur).length ≤ (wordsAuxL l cur).length := by
  induction l generalizing k cur with
  | nil =>
    simp only [List.take_nil]
    exact le_refl _
  | cons x xs ih =>
    cases k with
    | zero =>
      cases cur with
      | nil => simp [wordsAuxL]
      | cons c cur2 =>
        simp only [List.take_zero]
        rw [show wordsAuxL [] (c :: cur2) = [(c :: cur2).reverse] from rfl]
        exact wordsAux_len_pos (x :: xs) c cur2
    | succ k =>
      rw [List.take_succ_cons, wordsAuxL, wordsAuxL]
      split
      · split
        · exact ih k []
        · simpa using ih k []
      · exact ih k (x :: cur)

theorem wordsAux_cons_ge_nil (x : Char) (xs : List Char) (cur : List Char) :
    (wordsAuxL xs []).length ≤ (wordsAuxL (x :: xs) cur).length := by
  rw [wordsAuxL]
  split
  · split
    · exact le_refl _
    · simp
  · rcases cur with _ | ⟨c, cur2⟩
    · exact wordsAux_len_nil_le xs x []
    · exact le_trans (wordsAux_len_nil_le xs x [])
        (le_of_eq (wordsAux_len_cons_eq xs x x [] (c :: cur2)))

theorem wordsAux_drop_le (l : List Char) (k : Nat) (cur : List Char) :
    (wordsAuxL (l.drop k) []).length ≤ (wordsAuxL l cur).length := by
  induction l generalizing k cur with
  | nil =>
    simp only [List.drop_nil]
    cases cur <;> simp [wordsAuxL]
  | cons x xs ih =>
    cases k with
    | zero =>
      simp only [List.drop_zero]
      cases cur with
      | nil => exact le_refl _
      | cons c cur2 => exact wordsAux_len_nil_le (x :: xs) c cur2
    | succ k =>
      rw [List.drop_succ_cons]
      exact le_trans (ih k []) (wordsAux_cons_ge_nil x xs cur)

theorem wordsAux_sep_append (xs ys : List Char) (cur : List Char) :
    (wordsAuxL (xs ++ ' ' :: ys) cur).length =
      (wordsAuxL xs cur).length + (wordsAuxL ys []).length := by
  induction xs generalizing cur with
  | nil =>
    rw [List.nil_append, wordsAuxL, wordsAuxL]
    have : isPyWs ' ' = true := by decide
    rw [if_pos this]
    split <;> simp [wordsAuxL] <;> omega
  | cons x xs ih =>
    rw [List.cons_append, wordsAuxL, wordsAuxL]
    split
    · split <;> simp [ih] <;> omega
    · exact ih (x :: cur)

theorem wordCount_take_le (l : List Char) (k : Nat) :
    (wordsAuxL (l.take k) []).length ≤ (wordsAuxL l []).length :=
  wordsAux_take_le l k []

theorem wordCount_drop_le (l : List Char) (k : Nat) :
    (wordsAuxL (l.drop k) []).length ≤ (wordsAuxL l []).length :=
  wordsAux_drop_le l k []

theorem wordCount_pystripL_le (l : List Char) :
    (wordsAuxL (pystripL l) []).length ≤ (wordsAuxL l []).length := by
  unfold pystripL
  have h1 : (wordsAuxL (l.dropWhile isPyWs) []).length ≤ (wordsAuxL l []).length := by
    obtain ⟨t, ht⟩ := List.dropWhile_suffix (l := l) (p := isPyWs)
    calc (wordsAuxL (l.dropWhile isPyWs) []).length
        = (wordsAuxL ((t ++ l.dropWhile isPyWs).drop t.length) []).length := by
          rw [List.drop_left]
      _ ≤ (wordsAuxL (t ++ l.dropWhile isPyWs) []).length := wordCount_drop_le _ _
      _ = (wordsAuxL l []).length := by rw [ht]
  refine le_trans ?_ h1
  obtain ⟨t, ht⟩ := List.rdropWhile_prefix (l := l.dropWhile isPyWs) (p := isPyWs)
  calc (wordsAuxL ((l.dropWhile isPyWs).rdropWhile isPyWs) []).length
      = (wordsAuxL (((l.dropWhile isPyWs).rdropWhile isPyWs ++ t).take
          ((l.dropWhile isPyWs).rdropWhile isPyWs).length) []).length := by
        rw [List.take_left]
    _ ≤ (wordsAuxL ((l.dropWhile isPyWs).rdropWhile isPyWs ++ t) []).length :=
        wordCount_take_le _ _
    _ = (wordsAuxL (l.dropWhile isPyWs) []).length := by rw [ht]

theorem wordCount_joinWith (parts : List String) :
    wordCount (joinWith " " parts) = (parts.map wordCount).sum := by
  induction parts with
  | nil => rfl
  | cons a rest ih =>
    cases rest with
    | nil => simp [joinWith, wordCount]
    | cons b rest2 =>
      show wordCount (a ++ " " ++ joinWith " " (b :: rest2)) = _
      have hdata : (a ++ " " ++ joinWith " " (b :: rest2)).data =
          a.data ++ ' ' :: (joinWith " " (b :: rest2)).data := by
        simp [String.data_append]
      unfold wordCount pywordsL
      rw [hdata, wordsAux_sep_append]
      have ih2 := ih
      unfold wordCount pywordsL at ih2
      rw [ih2]
      simp [wordCount, pywordsL]

theorem wordCount_collapseWs (l : List Char) :
    (∀ cur, (wordsAuxL (collapseWsAux false l) cur).length = (wordsAuxL l cur).length) ∧
    (wordsAuxL (collapseWsAux true l) []).length = (wordsAuxL l []).length := by
  induction l with
  | nil => exact ⟨fun cur => rfl, rfl⟩
  | cons x xs ih =>
    by_cases hx : isPyWs x
    · constructor
      · intro cur
        rw [show collapseWsAux false (x :: xs) = ' ' :: collapseWsAux true xs from by
          rw [collapseWsAux, if_pos hx]; rfl]
        rw [wordsAuxL, wordsAuxL, if_pos (show isPyWs ' ' = true from by decide), if_pos hx]
        split <;> simp [ih.2]
      · rw [show collapseWsAux true (x :: xs) = collapseWsAux true xs from by
          rw [collapseWsAux, if_pos hx]; rfl]
        rw [show wordsAuxL (x :: xs) [] = wordsAuxL xs [] from by
          rw [wordsAuxL, if_pos hx]; rfl]
        exact ih.2
    · constructor
      · intro cur
        rw [show collapseWsAux false (x :: xs) = x :: collapseWsAux false xs from by
          rw [collapseWsAux, if_neg hx]]

        rw [wordsAuxL, wordsAuxL, if_neg hx, if_neg hx]
        exact ih.1 (x :: cur)
      · rw [show collapseWsAux true (x :: xs) = x :: collapseWsAux false xs from by
          rw [collapseWsAux, if_neg hx]]
        rw [wordsAuxL, wordsAuxL, if_neg hx, if_neg hx]
        exact ih.1 [x]

theorem collapseWs_no_nl (b : Bool) (l : List Char) :
    ∀ c ∈ collapseWsAux b l, c = ' ' ∨ isPyWs c = false := by
  induction l generalizing b with
  | nil => intro c hc; cases hc
  | cons x xs ih =>
    intro c hc
    rw [collapseWsAux] at hc
    by_cases hx : isPyWs x
    · rw [if_pos hx] at hc
      rcases b with _ | _
      · rcases List.mem_cons.mp hc with h | h
        · exact Or.inl h
        · exact ih true c h
      · exact ih true c hc
    · rw [if_neg hx] at hc
      rcases List.mem_cons.mp hc with h | h
      · subst h; exact Or.inr (by simpa using hx)
      · exact ih false c h

theorem cleanNlRunsF_id (fuel : Nat) (l : List Char)
    (h : ∀ c ∈ l, c ≠ '\n') : cleanNlRunsF fuel l = l := by
  induction fuel generalizing l with
  | zero => rfl
  | succ fuel ih =>
    cases l with
    | nil => rfl
    | cons c cs =>
      have hc : c ≠ '\n' := h c (by simp)
      rw [cleanNlRunsF, if_neg hc]
      rw [ih cs (fun c2 hc2 => h c2 (by simp [hc2]))]

theorem cleanNlRuns_id (l : List Char) (h : ∀ c ∈ l, c ≠ '\n') :
    cleanNlRuns l = l :=
  cleanNlRunsF_id l.length l h

theorem no_nl_take (l : List Char) (k : Nat) (h : ∀ c ∈ l, c ≠ '\n') :
    ∀ c ∈ l.take k, c ≠ '\n' :=
  fun c hc => h c (List.take_subset k l hc)

theorem no_nl_drop (l : List Char) (k : Nat) (h : ∀ c ∈ l, c ≠ '\n') :
    ∀ c ∈ l.drop k, c ≠ '\n' :=
  fun c hc => h c (List.drop_subset k l hc)

/-- `_clean_text` never increases the whitespace-delimited word count:
the whitespace collapse preserves it and every marker-removal step is a
`take`/`drop`. -/
theorem wordCount_clean_text_le (s : String) :
    wordCount (clean_text s) ≤ wordCount s := by
  unfold clean_text
  split
  · simp [wordCount, pywordsL, wordsAuxL]
  · have h0 : ∀ c ∈ collapseWsL s.data, c ≠ '\n' := by
      intro c hc
      rcases collapseWs_no_nl false s.data c hc with h | h
      · subst h; decide
      · intro hcn; subst hcn; exact absurd h (by decide)
    -- each marker step is a take or drop, so word count only decreases
    -- and the no-newline property is preserved
    have step1 : ∀ l : List Char, (wordsAuxL (dropAltPre adsMarkers l) []).length ≤
        (wordsAuxL l []).length := by
      intro l
      unfold dropAltPre
      split
      · exact wordCount_drop_le l _
      · exact le_refl _
    have step1m : ∀ l : List Char, (∀ c ∈ l, c ≠ '\n') →
        ∀ c ∈ dropAltPre adsMarkers l, c ≠ '\n' := by
      intro l hl
      unfold dropAltPre
      split
      · exact no_nl_drop l _ hl
      · exact hl
    have step2 : ∀ l : List Char, (wordsAuxL (truncAtMarkers tailMarkers l) []).length ≤
        (wordsAuxL l []).length := by
      intro l
      unfold truncAtMarkers
      split
      · exact wordCount_take_le l _
      · exact le_refl _
    have step2m : ∀ l : List Char, (∀ c ∈ l, c ≠ '\n') →
        ∀ c ∈ truncAtMarkers tailMarkers l, c ≠ '\n' := by
      intro l hl
      unfold truncAtMarkers
      split
      · exact no_nl_take l _ hl
      · exact hl
    have step3 : ∀ l : List Char, (wordsAuxL (bylineStep l) []).length ≤
        (wordsAuxL l []).length := by
      intro l
      unfold bylineStep
      dsimp only
      split
      · exact wordCount_drop_le l _
      · exact le_refl _
    have step3m : ∀ l : List Char, (∀ c ∈ l, c ≠ '\n') →
        ∀ c ∈ bylineStep l, c ≠ '\n' := by
      intro l hl
      unfold bylineStep
      dsimp only
      split
      · exact no_nl_drop l _ hl
      · exact hl
    have step4 : ∀ l : List Char, (wordsAuxL (shareStep l) []).length ≤
        (wordsAuxL l []).length := by
      intro l
      unfold shareStep
      split
      · exact wordCount_take_le l _
      · exact le_refl _
    have step4m : ∀ l : List Char, (∀ c ∈ l, c ≠ '\n') →
        ∀ c ∈ shareStep l, c ≠ '\n' := by
      intro l hl
      unfold shareStep
      split
      · exact no_nl_take l _ hl
      · exact hl
    have hnl4 : ∀ c ∈ shareStep (bylineStep (truncAtMarkers tailMarkers
        (dropAltPre adsMarkers (collapseWsL s.data)))), c ≠ '\n' :=
      step4m _ (step3m _ (step2m _ (step1m _ h0)))
    dsimp only
    rw [cleanNlRuns_id _ hnl4]
    show (wordsAuxL (pystripL (shareStep (bylineStep (truncAtMarkers tailMarkers
      (dropAltPre adsMarkers (collapseWsL s.data)))))) []).length ≤
      (wordsAuxL s.data []).length
    calc (wordsAuxL (pystripL (shareStep (bylineStep (truncAtMarkers tailMarkers
          (dropAltPre adsMarkers (collapseWsL s.data)))))) []).length
        ≤ (wordsAuxL (shareStep (bylineStep (truncAtMarkers tailMarkers
          (dropAltPre adsMarkers (collapseWsL s.data))))) []).length :=
          wordCount_pystripL_le _
      _ ≤ (wordsAuxL (bylineStep (truncAtMarkers tailMarkers
          (dropAltPre adsMarkers (collapseWsL s.data)))) []).length := step4 _
      _ ≤ (wordsAuxL (truncAtMarkers tailMarkers
          (dropAltPre adsMarkers (collapseWsL s.data))) []).length := step3 _
      _ ≤ (wordsAuxL (dropAltPre adsMarkers (collapseWsL s.data)) []).length := step2 _
      _ ≤ (wordsAuxL (collapseWsL s.data) []).length := step1 _
      _ = (wordsAuxL s.data []).length := (wordCount_collapseWs s.data).1 []

/-- Whitespace-delimited words carried directly by a node (text nodes
only). -/
def nodeTextWords : HNode → Nat
  | .text s => wordCount s
  | _ => 0

/-- Total words over a (flattened) node list. -/
def wordsBelow (l : List HNode) : Nat :=
  (l.map nodeTextWords).sum

/-- The document's total extractable words: words of all text nodes. -/
def forestTextWords (f : HForest) : Nat :=
  wordsBelow (descF f)

theorem wordsBelow_cons (n : HNode) (l : List HNode) :
    wordsBelow (n :: l) = nodeTextWords n + wordsBelow l := by
  simp [wordsBelow]

theorem wordsBelow_append (l1 l2 : List HNode) :
    wordsBelow (l1 ++ l2) = wordsBelow l1 + wordsBelow l2 := by
  simp [wordsBelow]

theorem partsAux_sum_le (l : List HNode) : ∀ acc : List String,
    ((partsAux l acc).map wordCount).sum ≤ (acc.map wordCount).sum + wordsBelow l := by
  induction l with
  | nil =>
    intro acc
    show ((acc.reverse.map wordCount)).sum ≤ _
    rw [List.map_reverse, List.sum_reverse]
    simp [wordsBelow]
  | cons n rest ih =>
    intro acc
    cases n with
    | text s =>
      by_cases hts : pystrip s = ""
      · rw [show partsAux (HNode.text s :: rest) acc = partsAux rest acc from by
          rw [partsAux]; rw [if_pos hts]]
        refine le_trans (ih acc) ?_
        rw [wordsBelow_cons]
        omega
      · rw [show partsAux (HNode.text s :: rest) acc = partsAux rest (pystrip s :: acc)
          from by rw [partsAux]; rw [if_neg hts]]
        refine le_trans (ih (pystrip s :: acc)) ?_
        rw [wordsBelow_cons]
        have hle : wordCount (pystrip s) ≤ wordCount s := wordCount_pystripL_le s.data
        have htw : nodeTextWords (HNode.text s) = wordCount s := rfl
        simp only [List.map_cons, List.sum_cons]
        omega
    | comment s =>
      rw [show partsAux (HNode.comment s :: rest) acc = partsAux rest acc from rfl]
      refine le_trans (ih acc) ?_
      rw [wordsBelow_cons]
      omega
    | elem t a cs =>
      have key : partsAux (HNode.elem t a cs :: rest) acc = partsAux rest acc ∨
          partsAux (HNode.elem t a cs :: rest) acc = partsAux rest ("\n" :: acc) := by
        by_cases hcond : t = "br" ∨ t = "p" ∨ t = "div"
        · cases acc with
          | nil =>
            left
            nth_rewrite 1 [partsAux.eq_def]
            dsimp only
            rw [if_pos hcond]
          | cons a1 acc2 =>
            by_cases hnl : a1.data.getLast? = some '\n'
            · left
              nth_rewrite 1 [partsAux.eq_def]
              dsimp only
              rw [if_pos hcond, if_pos hnl]
            · right
              nth_rewrite 1 [partsAux.eq_def]
              dsimp only
              rw [if_pos hcond, if_neg hnl]
        · left
          nth_rewrite 1 [partsAux.eq_def]
          dsimp only
          rw [if_neg hcond]
      have hz : nodeTextWords (HNode.elem t a cs) = 0 := rfl
      rcases key with h | h <;> rw [h]
      · refine le_trans (ih acc) ?_
        rw [wordsBelow_cons, hz]
        omega
      · refine le_trans (ih ("\n" :: acc)) ?_
        rw [wordsBelow_cons, hz]
        have hnl : wordCount "\n" = 0 := rfl
        simp only [List.map_cons, List.sum_cons, hnl]
        omega

/-- The text extracted from one element has at most as many words as
the element's subtree carries. -/
theorem wordCount_extract_text_le (n : HNode) :
    wordCount (extract_text_from_element n) ≤ wordsBelow (descN n) := by
  unfold extract_text_from_element
  refine le_trans (wordCount_clean_text_le _) ?_
  rw [wordCount_joinWith]
  simpa using partsAux_sum_le (descN n) []

mutual
/-- A descendant's subtree words are bounded by the ancestor's. -/
theorem wordsBelow_mem_N :
    ∀ (n : HNode) (m : HNode), m ∈ descN n →
      nodeTextWords m + wordsBelow (descN m) ≤ wordsBelow (descN n)
  | .text _, m, h => by simp [descN] at h
  | .comment _, m, h => by simp [descN] at h
  | .elem t a cs, m, h => wordsBelow_mem_F cs m h
/-- A forest member's subtree words are bounded by the forest's. -/
theorem wordsBelow_mem_F :
    ∀ (f : HForest) (m : HNode), m ∈ descF f →
      nodeTextWords m + wordsBelow (descN m) ≤ wordsBelow (descF f)
  | .nil, m, h => by simp [descF] at h
  | .cons n r, m, h => by
    rw [show descF (HForest.cons n r) = (n :: descN n) ++ descF r from rfl,
      wordsBelow_append, wordsBelow_cons]
    rcases List.mem_cons.mp h with h0 | h0
    · subst h0
      omega
    · rcases List.mem_append.mp h0 with h1 | h1
      · have := wordsBelow_mem_N n m h1
        omega
      · have := wordsBelow_mem_F r m h1
        omega
end

mutual
/-- Filtering never increases a subtree's words (and keeps a node's own
words). -/
theorem wordsBelow_filterN (keep : HNode → Bool) :
    ∀ n : HNode, nodeTextWords (filterKeepN keep n) = nodeTextWords n ∧
      wordsBelow (descN (filterKeepN keep n)) ≤ wordsBelow (descN n)
  | .text _ => ⟨rfl, le_refl _⟩
  | .comment _ => ⟨rfl, le_refl _⟩
  | .elem t a cs => ⟨rfl, wordsBelow_filterF keep cs⟩
/-- Filtering never increases a forest's words. -/
theorem wordsBelow_filterF (keep : HNode → Bool) :
    ∀ f : HForest, wordsBelow (descF (filterKeepF keep f)) ≤ wordsBelow (descF f)
  | .nil => le_refl _
  | .cons n r => by
    rw [show filterKeepF keep (.cons n r) =
        (if keep n then .cons (filterKeepN keep n) (filterKeepF keep r)
         else filterKeepF keep r) from rfl]
    rw [show descF (HForest.cons n r) = (n :: descN n) ++ descF r from rfl,
      wordsBelow_append, wordsBelow_cons]
    split
    · rw [show descF (HForest.cons (filterKeepN keep n) (filterKeepF keep r)) =
          (filterKeepN keep n :: descN (filterKeepN keep n)) ++ descF (filterKeepF keep r)
          from rfl, wordsBelow_append, wordsBelow_cons]
      have h1 := wordsBelow_filterN keep n
      have h2 := wordsBelow_filterF keep r
      omega
    · have h2 := wordsBelow_filterF keep r
      omega
end

theorem forestWords_fold_le (label : String) (ts : List String) :
    ∀ f : HForest, forestTextWords (fold_tag_removals label ts f).1 ≤ forestTextWords f := by
  induction ts with
  | nil => intro f; exact le_refl _
  | cons t0 ts ih =>
    intro f
    rw [show (fold_tag_removals label (t0 :: ts) f).1 =
        (fold_tag_removals label ts (remove_tag_pass label t0 f).1).1 from rfl]
    refine le_trans (ih (remove_tag_pass label t0 f).1) ?_
    exact wordsBelow_filterF _ f

/-- Sanitizing (comment/script removal then the boilerplate filter)
never increases the document's words. -/
theorem forestWords_sanitize_le (f : HForest) :
    forestTextWords (sanitize_tree f) ≤ forestTextWords f := by
  unfold sanitize_tree
  simp only [remove_boilerplate_elements, remove_comments_and_scripts, pattern_pass_fst]
  refine le_trans (wordsBelow_filterF _ _) (le_trans (wordsBelow_filterF _ _) ?_)
  refine le_trans (forestWords_fold_le _ _ _) ?_
  refine le_trans (forestWords_fold_le _ _ _) ?_
  exact wordsBelow_filterF _ f

theorem findAllTag_subset (t : String) (f : HForest) :
    ∀ e ∈ findAllTag t f, e ∈ descF f :=
  fun e he => (List.mem_filter.mp he).1

theorem foldl_pickBest_mem :
    ∀ (l : List (HNode × ℚ)) (acc : Option (HNode × ℚ)) (r : HNode × ℚ),
      l.foldl pickBest acc = some r → acc = some r ∨ r ∈ l := by
  intro l
  induction l with
  | nil => intro acc r h; exact Or.inl h
  | cons a l ih =>
    intro acc r h
    rcases ih (pickBest acc a) r h with h2 | h2
    · rcases acc with _ | ms
      · rw [show pickBest none a = some a from rfl] at h2
        cases h2; exact Or.inr (by simp)
      · rw [show pickBest (some ms) a =
            (if a.2 > ms.2 then some a else some ms) from rfl] at h2
        by_cases hgt : a.2 > ms.2
        · rw [if_pos hgt] at h2; cases h2; exact Or.inr (by simp)
        · rw [if_neg hgt] at h2; exact Or.inl h2
    · exact Or.inr (by simp [h2])

theorem find_best_mem (f : HForest) (e : HNode)
    (h : find_best_content_element f = some e) : e ∈ descF f := by
  unfold find_best_content_element at h
  obtain ⟨⟨e2, sc⟩, hfold, he2⟩ := Option.map_eq_some'.mp h
  subst he2
  rcases foldl_pickBest_mem _ none _ hfold with hacc | hmem
  · cases hacc
  · obtain ⟨n0, hn0, hsome⟩ := List.mem_filterMap.mp hmem
    have hn0e : n0 = e2 := by
      revert hsome
      split
      · intro hs; cases hs; rfl
      · intro hs; cases hs
    subst hn0e
    obtain ⟨l0, hl0, hmem0⟩ := List.mem_flatten.mp hn0
    obtain ⟨t0, _, hfa⟩ := List.mem_map.mp hl0
    subst hfa
    exact findAllTag_subset t0 f _ hmem0

theorem is_good_content_false_of_small {c : String} (h : wordCount c ≤ 49) :
    is_good_content c = false := by
  unfold is_good_content
  split
  · rfl
  · dsimp only
    rw [if_pos]
    unfold wordCount at h
    omega

theorem extract_generic_content_empty (f : HForest)
    (hall : ∀ e ∈ descF f, wordCount (extract_text_from_element e) ≤ 10) :
    extract_generic_content f = "" := by
  unfold extract_generic_content
  have hps : ((findAllTag "p" f).map extract_text_from_element).filter
      (fun t => decide (t ≠ "" ∧ wordCount t > 10)) = [] := by
    rw [List.filter_eq_nil_iff]
    intro a ha
    obtain ⟨e, he, hae⟩ := List.mem_map.mp ha
    subst hae
    have hb := hall e (findAllTag_subset "p" f e he)
    simp only [decide_eq_true_eq, not_and]
    intro _ hgt
    omega
  rw [hps]
  have hfind : (["div", "section", "article"].findSome? (fun tg =>
      (findAllTag tg f).findSome? (fun e =>
        if extract_text_from_element e ≠ "" ∧ wordCount (extract_text_from_element e) > 20
        then some (extract_text_from_element e) else none))) = none := by
    rw [List.findSome?_eq_none_iff]
    intro tg _
    rw [List.findSome?_eq_none_iff]
    intro e he
    have hb := hall e (findAllTag_subset tg f e he)
    rw [if_neg]
    rintro ⟨_, hgt⟩
    omega
  dsimp only
  rw [if_neg (by simp), hfind]
  rfl

theorem readability_gate_fails (f : HForest)
    (hall : ∀ e ∈ descF f, wordCount (extract_text_from_element e) ≤ 10) :
    ¬(extract_with_readability f ≠ "" ∧ is_good_content (extract_with_readability f)) := by
  unfold extract_with_readability
  cases hb : find_best_content_element f with
  | none => simp
  | some e =>
    have hwc := hall e (find_best_mem f e hb)
    rintro ⟨_, hgood⟩
    rw [is_good_content_false_of_small (le_trans hwc (by norm_num))] at hgood
    cases hgood

theorem create_result_empty (st : List String) (m : String) :
    create_result st "" m =
      { clean_text := ""
        word_count := 0
        paragraph_count := 0
        extraction_method := m
        confidence_score := 0.0
        removed_elements := st } := by
  unfold create_result
  rw [if_pos rfl]

theorem cascade_rest_small (st2 : List String) (f : HForest)
    (hall : ∀ e ∈ descF f, wordCount (extract_text_from_element e) ≤ 10) :
    (extract_cascade_rest st2 f).confidence_score = 0 ∧
    (extract_cascade_rest st2 f).clean_text = "" := by
  unfold extract_cascade_rest
  rw [if_neg (readability_gate_fails f hall)]
  rw [extract_generic_content_empty f hall, create_result_empty]
  rw [if_pos (by norm_num)]
  exact ⟨by norm_num, rfl⟩

/-- C9 (amended): when no site selectors are supplied, a document whose
total extractable content is at most 10 words is never accepted as good
content — the result has confidence 0 and empty clean text (the quality
gate needs 50 words, the generic harvest needs more than 10 per
paragraph / 20 per container). -/
theorem small_document_rejected
    (select : String → HForest → List HNode)
    (parseHtml : String → Option HForest)
    (st : List String) (s : String)
    (hw : ∀ t, parseHtml (handle_encoding_issues s) = some t → forestTextWords t ≤ 10) :
    (extract_content select parseHtml st (.str s) none).1.confidence_score = 0 ∧
    (extract_content select parseHtml st (.str s) none).1.clean_text = "" := by
  by_cases hs : pystrip s = ""
  · simp only [extract_content, if_pos hs]
    exact ⟨by norm_num [empty_input_result], rfl⟩
  · simp only [extract_content, if_neg hs]
    unfold extract_str_body
    cases hp : parseHtml (handle_encoding_issues s) with
    | none => exact ⟨by norm_num [create_error_result], rfl⟩
    | some t =>
      have hall : ∀ e ∈ descF (sanitize_tree t),
          wordCount (extract_text_from_element e) ≤ 10 := by
        intro e he
        refine le_trans (wordCount_extract_text_le e) ?_
        have h1 := wordsBelow_mem_F (sanitize_tree t) e he
        have h2 := forestWords_sanitize_le t
        have h3 := hw t hp
        unfold forestTextWords at h2 h3
        omega
      show (extract_parsed select (st ++ sanitize_log t) (sanitize_tree t) none).confidence_score = 0 ∧
        (extract_parsed select (st ++ sanitize_log t) (sanitize_tree t) none).clean_text = ""
      exact cascade_rest_small (st ++ sanitize_log t) (sanitize_tree t) hall

/-- Witness for the amended C9: a three-word document is rejected. -/
theorem small_document_rejected_witness :
    (∀ t, (fun (_ : String) => some plainSoup) "x" = some t → forestTextWords t ≤ 10) ∧
    (extract_content noSel (fun _ => some plainSoup) [] (.str "x") none).1.confidence_score = 0 :=
  ⟨fun t ht => by cases ht; decide,
   (small_document_rejected noSel (fun _ => some plainSoup) [] "x"
      (fun t ht => by cases ht; decide)).1⟩

/-- A single ten-word sentence. -/
def tenWordText : String := "aaaa bbbb cccc dddd eeee ffff gggg hhhh iiii jjjj."

def nest1 : HNode := .elem "div" {} (.cons (.text tenWordText) .nil)

def nest2 : HNode := .elem "div" {} (.cons nest1 .nil)

def nest3 : HNode := .elem "div" {} (.cons nest2 .nil)

def nest4 : HNode := .elem "div" {} (.cons nest3 .nil)

def nest5 : HNode := .elem "div" {} (.cons nest4 .nil)

/-- Five nested plain `div`s around one ten-word sentence: the document's
total extractable content is that single sentence. -/
def nestSoup : HForest := .cons nest5 .nil

def nestParse : String → Option HForest := fun _ => some nestSoup

set_option maxRecDepth 400000 in
/-- Counterexample to C9 as stated: this document's total extractable
content is one ten-word sentence, yet with the site selector `div`
(which matches all five nested `div`s, so their overlapping texts are
concatenated into 50 words) extraction accepts the candidate as good
content: method `site_specific`, confidence 1, word count 50. -/
theorem ten_word_document_counterexample :
    forestTextWords nestSoup = 10 ∧
    segsCount tenWordText.data = 2 ∧
    (extract_content selDiv nestParse [] (.str "x")
      (some { content_selector := some "div" })).1.extraction_method = "site_specific" ∧
    (extract_content selDiv nestParse [] (.str "x")
      (some { content_selector := some "div" })).1.confidence_score = 1 ∧
    (extract_content selDiv nestParse [] (.str "x")
      (some { content_selector := some "div" })).1.word_count = 50 := by
  have hpr := site_specific_priority selDiv nestParse [] "x" { content_selector := some "div" }
      nestSoup (by decide) rfl ⟨by decide, by decide⟩
  refine ⟨rfl, rfl, hpr.2, ?_, ?_⟩
  · rw [hpr.1]
    show calculate_confidence_score (extract_with_selectors selDiv (sanitize_tree nestSoup)
      { content_selector := some "div" }) "site_specific" = 1
    unfold calculate_confidence_score
    rw [if_neg (by decide)]
    rw [show wordCount (extract_with_selectors selDiv (sanitize_tree nestSoup)
          { content_selector := some "div" }) = 50 from rfl,
        show segsCount (extract_with_selectors selDiv (sanitize_tree nestSoup)
          { content_selector := some "div" }).data = 6 from rfl,
        show (nnSplit (extract_with_selectors selDiv (sanitize_tree nestSoup)
          { content_selector := some "div" }).data).length = 5 from rfl,
        show method_scores "site_specific" = 0.8 from rfl]
    norm_num
  · rw [hpr.1]
    show wordCount (extract_with_selectors selDiv (sanitize_tree nestSoup)
      { content_selector := some "div" }) = 50
    rfl

end ONI
